import Mathlib

set_option maxHeartbeats 1000000

namespace Codex

/-!
A shallow embedding of the turn-orchestration core of the repository:
the Chat Completions wire assembler (`codex-api/src/requests/chat.rs`),
the tool router (`core/src/tools/router.rs`), the tool orchestrator
(`core/src/tools/orchestrator.rs`) and the stream reducer
(`core/src/stream_events_utils.rs`).  Types from the external
`codex_protocol` crate are reconstructed from the fields these four files
actually read and write.
-/

/-- `codex_protocol::models::ContentItem`. -/
inductive ContentItem
| inputText (text : String)
| outputText (text : String)
| inputImage (imageUrl : String)
deriving DecidableEq, Repr

/-- `codex_protocol::models::ReasoningItemContent`. -/
inductive ReasoningItemContent
| reasoningText (text : String)
| text (text : String)
deriving DecidableEq, Repr

/-- `codex_protocol::models::FunctionCallOutputContentItem`. -/
inductive FunctionCallOutputContentItem
| inputText (text : String)
| inputImage (imageUrl : String)
deriving DecidableEq, Repr

/-- `codex_protocol::models::FunctionCallOutputPayload`; the record defaults
model `Default::default()`. -/
structure FunctionCallOutputPayload where
  content : String := ""
  content_items : Option (List FunctionCallOutputContentItem) := none
  success : Option Bool := none
deriving DecidableEq, Repr

/-- The `Exec` payload of `codex_protocol::models::LocalShellAction`. -/
structure LocalShellExecAction where
  command : List String
  working_directory : Option String := none
  timeout_ms : Option Nat := none
deriving DecidableEq, Repr

/-- `codex_protocol::models::LocalShellAction` (the sources only match the
`Exec` variant). -/
inductive LocalShellAction
| exec (a : LocalShellExecAction)
deriving DecidableEq, Repr

/-- The JSON object a tool call becomes inside an assistant message's
`tool_calls` array.  `chat.rs` builds exactly three shapes (lines 333, 360
and 421); every shape carries an `"id"` string, which is what
`validate_tool_calls_sequence` reads back.  The same shape models the
`tool_calls` field of a protocol `Message`, whose concrete type lives
outside this snapshot and is only ever serialised and read back by id. -/
inductive ToolCallJson
| function (id name arguments : String)
| localShell (id status : String) (action : LocalShellAction)
| custom (id name input : String)
deriving DecidableEq, Repr

/-- The `"id"` field of an emitted tool call. -/
def ToolCallJson.id : ToolCallJson → String
| .function i _ _ => i
| .localShell i _ _ => i
| .custom i _ _ => i

/-- `codex_protocol::models::ResponseItem`, with the fields the four source
files read.  `LocalShellCall.status` is kept as a plain string and the
`Reasoning` variant keeps only its `content` field, the only one used. -/
inductive ResponseItem
| message (id : Option String) (role : String) (content : List ContentItem)
    (reasoning_content : Option String) (tool_calls : Option (List ToolCallJson))
| functionCall (id : Option String) (name arguments call_id : String)
| functionCallOutput (call_id : String) (output : FunctionCallOutputPayload)
| localShellCall (id call_id : Option String) (status : String) (action : LocalShellAction)
| customToolCall (id : Option String) (call_id name input : String) (status : Option String)
| customToolCallOutput (call_id : String) (output : String)
| reasoning (content : Option (List ReasoningItemContent))
| webSearchCall
| ghostSnapshot
| compaction
| other
deriving DecidableEq, Repr

/-- One part of a typed-parts content array (`{"type":"text"}` or
`{"type":"image_url"}`). -/
inductive CPart
| text (t : String)
| imageUrl (u : String)
deriving DecidableEq, Repr

/-- The JSON value stored under a message's `"content"` key: `null`, a plain
string, or an array of typed parts. -/
inductive JContent
| null
| str (s : String)
| parts (ps : List CPart)
deriving DecidableEq, Repr

/-- One element of the assembled `messages` array.  An `Option` field models
presence of the corresponding JSON key. -/
structure Msg where
  role : String
  content : JContent
  reasoning : Option String := none
  reasoning_content : Option String := none
  tool_calls : Option (List ToolCallJson) := none
  tool_call_id : Option String := none
deriving DecidableEq, Repr

/-- `crate::error::ApiError::Api` with its HTTP status code as a number. -/
inductive ApiError
| api (status : Nat) (message : String)
deriving DecidableEq, Repr

/-! ### Wire assembler (`codex-api/src/requests/chat.rs`) -/

/-- First pre-pass of `ChatRequestBuilder::build` (lines 67-83): the last
emitted role, looking through inert items.  `CustomToolCall` and
`CustomToolCallOutput` deliberately do not update it, exactly as in the
source. -/
def lastEmittedRole (input : List ResponseItem) : Option String :=
  input.foldl (fun acc item =>
    match item with
    | .message _ role _ _ _ => some role
    | .functionCall _ _ _ _ => some "assistant"
    | .localShellCall _ _ _ _ => some "assistant"
    | .functionCallOutput _ _ => some "tool"
    | _ => acc) none

/-- Second pre-pass (lines 85-92): index of the last user message. -/
def lastUserIndex (input : List ResponseItem) : Option Nat :=
  input.enum.foldl (fun acc p =>
    match p.2 with
    | .message _ role _ _ _ => if role = "user" then some p.1 else acc
    | _ => acc) none

/-- Concatenation of the text of the entries of a `Reasoning` item
(lines 107-115). -/
def reasoningText (items : List ReasoningItemContent) : String :=
  items.foldl (fun acc e =>
    match e with
    | .reasoningText s => acc ++ s
    | .text s => acc ++ s) ""

/-- `HashMap::entry(i).and_modify(push_str text).or_insert(text)` on the
reasoning anchor map. -/
def anchorUpsert (m : Nat → Option String) (i : Nat) (t : String) : Nat → Option String :=
  fun j => if j = i then some ((m i).getD "" ++ t) else m j

/-- Does the item match `ResponseItem::Message` with role `assistant`? -/
def isAssistantMessage : ResponseItem → Bool
| .message _ role _ _ _ => role == "assistant"
| _ => false

/-- May the item that follows a reasoning item receive its text (lines
133-146): a `FunctionCall`, a `LocalShellCall` or an assistant message? -/
def isAnchorNext : ResponseItem → Bool
| .functionCall _ _ _ _ => true
| .localShellCall _ _ _ _ => true
| .message _ role _ _ _ => role == "assistant"
| _ => false

/-- One iteration of the anchoring loop (lines 95-151). -/
def anchorStep (input : List ResponseItem) (lastUser : Option Nat)
    (m : Nat → Option String) (idx : Nat) (item : ResponseItem) : Nat → Option String :=
  let skip : Bool := match lastUser with
    | some u => decide (idx ≤ u)
    | none => false
  if skip then m
  else
    match item with
    | .reasoning (some items) =>
      let text := reasoningText items
      if text.trim = "" then m
      else
        let prev : Option ResponseItem := if 0 < idx then input[idx-1]? else none
        match prev with
        | some p =>
          if isAssistantMessage p then anchorUpsert m (idx-1) text
          else
            match input[idx+1]? with
            | some nxt => if isAnchorNext nxt then anchorUpsert m (idx+1) text else m
            | none => m
        | none =>
          match input[idx+1]? with
          | some nxt => if isAnchorNext nxt then anchorUpsert m (idx+1) text else m
          | none => m
    | _ => m

/-- The reasoning anchor map `reasoning_by_anchor_index` (lines 67-152):
empty when the last emitted role is `user`. -/
def buildAnchorMap (input : List ResponseItem) : Nat → Option String :=
  if lastEmittedRole input = some "user" then fun _ => none
  else
    input.enum.foldl (fun m p => anchorStep input (lastUserIndex input) m p.1 p.2)
      (fun _ => none)

/-- Accumulator of the per-message content loop (lines 193-207):
concatenated text, typed parts, and whether an image was seen. -/
structure ContentAcc where
  text : String
  items : List CPart
  sawImage : Bool
deriving DecidableEq, Repr

/-- The per-message content loop (both copies in the `Message` arm compute
the same three values). -/
def contentParts (content : List ContentItem) : ContentAcc :=
  content.foldl (fun acc c =>
    match c with
    | .inputText t => { acc with text := acc.text ++ t, items := acc.items ++ [.text t] }
    | .outputText t => { acc with text := acc.text ++ t, items := acc.items ++ [.text t] }
    | .inputImage u => { acc with items := acc.items ++ [.imageUrl u], sawImage := true })
    ⟨"", [], false⟩

/-- The merge test of `push_tool_call_message` (lines 598-601): the last
message is an assistant with `content: null` carrying a `tool_calls`
array. -/
def mergeTargetB (m : Msg) : Bool :=
  m.role == "assistant" && m.content == JContent.null && m.tool_calls.isSome

/-- The `reasoning_content` bookkeeping of `push_tool_call_message` when a
call is appended to an existing wrapper (lines 604-623). -/
def applyMergeReasoning (m : Msg) (reasoning : Option String) : Msg :=
  match reasoning with
  | some r =>
    match m.reasoning_content with
    | some existing =>
      let merged := if existing = "" then r else existing ++ "\n" ++ r
      { m with reasoning_content := some merged }
    | none => { m with reasoning_content := some r }
  | none =>
    match m.reasoning_content with
    | some _ => m
    | none => { m with reasoning_content := some "" }

/-- The fresh assistant wrapper pushed by `push_tool_call_message`
(lines 627-643). -/
def freshToolCallMsg (tc : ToolCallJson) (reasoning : Option String) : Msg :=
  { role := "assistant", content := JContent.null, tool_calls := some [tc],
    reasoning_content := some (reasoning.getD "") }

/-- `push_tool_call_message` (lines 595-644). -/
def pushToolCallMessage (messages : List Msg) (tc : ToolCallJson)
    (reasoning : Option String) : List Msg :=
  match messages.getLast? with
  | some m =>
    match m.tool_calls with
    | some tcs =>
      if m.role = "assistant" ∧ m.content = JContent.null then
        messages.dropLast ++
          [applyMergeReasoning { m with tool_calls := some (tcs ++ [tc]) } reasoning]
      else messages ++ [freshToolCallMsg tc reasoning]
    | none => messages ++ [freshToolCallMsg tc reasoning]
  | none => messages ++ [freshToolCallMsg tc reasoning]

/-- Mutable state of the main assembly loop (lines 154-158). -/
structure AsmState where
  messages : List Msg
  last_assistant_text : Option String := none
  pending : List String := []
  last_assistant_with_tool_calls_index : Option Nat := none
deriving DecidableEq, Repr

/-- `HashSet::insert` on the pending-call-id set. -/
def hsInsert (s : List String) (x : String) : List String :=
  if s.contains x then s else s ++ [x]

/-- The retain predicate of the eviction step (lines 271-274): keep a message
unless it is an assistant message carrying `tool_calls`. -/
def notAssistantWithToolCalls (m : Msg) : Bool :=
  ! (m.role == "assistant" && m.tool_calls.isSome)

/-- The tail of the `Message` arm (lines 264-323): eviction of an incomplete
tool-call fragment, duplicate-assistant suppression, and emission.  It is
reached only for roles other than `assistant` (and other than `tool` with an
id), because those arms `continue` earlier; the dead assistant-only branches
are nevertheless embedded faithfully. -/
def processMessageTail (anchor : Nat → Option String) (st : AsmState) (idx : Nat)
    (role text : String) (items : List CPart) (sawImage : Bool) : AsmState :=
  let st :=
    if (role = "user" ∨ role = "assistant") ∧ st.pending ≠ [] ∧
        st.last_assistant_with_tool_calls_index.isSome then
      { st with messages := st.messages.filter notAssistantWithToolCalls,
                pending := [], last_assistant_with_tool_calls_index := none }
    else st
  if role = "assistant" ∧ st.last_assistant_text = some text then st
  else
    let st := if role = "assistant" then { st with last_assistant_text := some text } else st
    let contentValue :=
      if role = "assistant" then JContent.str text
      else if sawImage then JContent.parts items
      else JContent.str text
    let msg : Msg := { role := role, content := contentValue }
    let msg :=
      if role = "assistant" then
        match anchor idx with
        | some r => { msg with reasoning := some r }
        | none => msg
      else msg
    { st with messages := st.messages ++ [msg] }

/-- The `tool_calls` key attached to an assistant message (lines 250-258):
present exactly when the item carried a non-empty `tool_calls` vector. -/
def assistantToolCallsField : Option (List ToolCallJson) → Option (List ToolCallJson)
| some l => if l.isEmpty then none else some l
| none => none

/-- After `push_tool_call_message`, record the index when the last message is
an assistant with `tool_calls` (lines 344-349 and twins). -/
def trackToolCallIndex (messages : List Msg) (idx : Nat) (old : Option Nat) : Option Nat :=
  match messages.getLast? with
  | some m => if m.role = "assistant" ∧ m.tool_calls.isSome then some idx else old
  | none => old

/-- One iteration of the main assembly loop of `ChatRequestBuilder::build`
(lines 161-463).  `rc` is `self.reasoning_content`. -/
def processItem (rc : Option String) (anchor : Nat → Option String)
    (st : AsmState) (idx : Nat) (item : ResponseItem) : AsmState :=
  match item with
  | .message id role0 content _rcf tool_calls =>
    let role := if role0 = "developer" then "user" else role0
    let acc := contentParts content
    match (if role = "tool" then id else none) with
    | some call_id =>
      { st with messages := st.messages ++
          [{ role := "tool", content := .str acc.text, tool_call_id := some call_id }] }
    | none =>
      if role = "assistant" then
        { st with messages := st.messages ++
            [{ role := "assistant", content := .str acc.text,
               reasoning_content := some (rc.getD ""),
               tool_calls := assistantToolCallsField tool_calls }] }
      else processMessageTail anchor st idx role acc.text acc.items acc.sawImage
  | .functionCall _id name arguments call_id =>
    let tc := ToolCallJson.function call_id name arguments
    let messages := pushToolCallMessage st.messages tc (anchor idx)
    let lastIdx := trackToolCallIndex messages idx st.last_assistant_with_tool_calls_index
    { st with messages := messages,
              pending := hsInsert st.pending call_id,
              last_assistant_with_tool_calls_index := lastIdx }
  | .localShellCall id _call_id status action =>
    let call_id := id.getD ""
    let tc := ToolCallJson.localShell call_id status action
    let messages := pushToolCallMessage st.messages tc (anchor idx)
    let lastIdx := trackToolCallIndex messages idx st.last_assistant_with_tool_calls_index
    { st with messages := messages,
              pending := hsInsert st.pending call_id,
              last_assistant_with_tool_calls_index := lastIdx }
  | .functionCallOutput call_id output =>
    let pending := st.pending.filter (fun y => y != call_id)
    let lastIdx := if pending.isEmpty then none else st.last_assistant_with_tool_calls_index
    let contentValue :=
      match output.content_items with
      | some its => JContent.parts (its.map (fun it =>
          match it with
          | .inputText t => CPart.text t
          | .inputImage u => CPart.imageUrl u))
      | none => JContent.str output.content
    { st with pending := pending, last_assistant_with_tool_calls_index := lastIdx,
              messages := st.messages ++
                [{ role := "tool", content := contentValue, tool_call_id := some call_id }] }
  | .customToolCall id call_id name input _status =>
    let tc := ToolCallJson.custom (id.getD call_id) name input
    let messages := pushToolCallMessage st.messages tc (anchor idx)
    let lastIdx := trackToolCallIndex messages idx st.last_assistant_with_tool_calls_index
    { st with messages := messages,
              pending := hsInsert st.pending call_id,
              last_assistant_with_tool_calls_index := lastIdx }
  | .customToolCallOutput call_id output =>
    let pending := st.pending.filter (fun y => y != call_id)
    let lastIdx := if pending.isEmpty then none else st.last_assistant_with_tool_calls_index
    { st with pending := pending, last_assistant_with_tool_calls_index := lastIdx,
              messages := st.messages ++
                [{ role := "tool", content := .str output, tool_call_id := some call_id }] }
  | .ghostSnapshot => st
  | .reasoning _ => st
  | .webSearchCall => st
  | .compaction => st
  | .other => st

/-- Folding the main loop over the remaining items, threading the index. -/
def processItems (rc : Option String) (anchor : Nat → Option String) :
    AsmState → Nat → List ResponseItem → AsmState
| st, _, [] => st
| st, idx, item :: rest => processItems rc anchor (processItem rc anchor st idx item) (idx+1) rest

/-- The system message pushed first (line 64). -/
def systemMsg (instructions : String) : Msg :=
  { role := "system", content := .str instructions }

/-- Initial assembly state. -/
def initState (instructions : String) : AsmState :=
  { messages := [systemMsg instructions] }

/-- The assembled `messages` array, before validation. -/
def assembleMessages (instructions : String) (rc : Option String)
    (input : List ResponseItem) : List Msg :=
  (processItems rc (buildAnchorMap input) (initState instructions) 0 input).messages

/-- The `BadRequest` error of `validate_tool_calls_sequence` (lines 568-573),
with its exact message text. -/
def missingToolMsgError (call_id : String) : ApiError :=
  .api 400 ("Missing tool message for tool_call_id: " ++ call_id ++
    ". An assistant message with \x27tool_calls\x27 must be followed by tool messages responding to each \x27tool_call_id\x27.")

/-- The inner scanning loop of `validate_tool_calls_sequence` (lines 540-558):
collect the `tool_call_id`s of the tool messages that follow, and report
whether a non-tool message was reached before the end. -/
def scanTools : List Msg → (List String × Bool)
| [] => ([], false)
| m :: rest =>
  if m.role = "tool" then
    match m.tool_call_id with
    | some cid =>
      let p := scanTools rest
      (cid :: p.1, p.2)
    | none => scanTools rest
  else ([], true)

/-- The outer loop of `validate_tool_calls_sequence` (lines 517-592), indexed
by explicit fuel: on a message of role `tool` the Rust loop executes
`continue` without advancing `i` and therefore never terminates; `build`
only invokes the function when no tool message exists, so the fuel branch is
unreachable there (a fact proved below) and is marked with a distinguished
status 599. -/
def validateLoop (msgs : List Msg) : Nat → Nat → Except ApiError Unit
| 0, _ => .error (.api 599 "validation loop out of fuel")
| fuel+1, i =>
  match msgs[i]? with
  | none => .ok ()
  | some m =>
    if m.role = "assistant" then
      match m.tool_calls with
      | some tcs =>
        let expected := tcs.map ToolCallJson.id
        if expected.isEmpty then validateLoop msgs fuel (i+1)
        else
          let p := scanTools (msgs.drop (i+1))
          if p.2 then
            match expected.find? (fun cid => ! p.1.contains cid) with
            | some cid => .error (missingToolMsgError cid)
            | none => validateLoop msgs fuel (i+1)
          else validateLoop msgs fuel (i+1)
      | none => validateLoop msgs fuel (i+1)
    else if m.role = "tool" then validateLoop msgs fuel i
    else validateLoop msgs fuel (i+1)

/-- `messages.iter().any(role == "tool")` (lines 470-472). -/
def hasToolMsg (msgs : List Msg) : Bool :=
  msgs.any (fun m => m.role == "tool")

/-- `ChatRequestBuilder::build` (lines 62-514), reduced to the data the
claims concern: the assembled `messages` array or the validation error.  The
constant payload fields (`model`, `stream`, `tools`) and the headers carry no
information about the history and are elided. -/
def build (instructions : String) (rc : Option String)
    (input : List ResponseItem) : Except ApiError (List Msg) :=
  let messages := assembleMessages instructions rc input
  if hasToolMsg messages then .ok messages
  else
    match validateLoop messages (messages.length + 1) 1 with
    | .ok _ => .ok messages
    | .error e => .error e

/-! ### Tool orchestrator (`core/src/tools/orchestrator.rs`) -/

/-- `codex_protocol::protocol::ReviewDecision` (variants as matched by the
orchestrator). -/
inductive ReviewDecision
| approved
| approvedExecpolicyAmendment
| approvedForSession
| denied
| abort
deriving DecidableEq, Repr

/-- `codex_protocol::protocol::AskForApproval`, consumed as an opaque input;
variants per the spec (`Never | OnRequest | OnFailure | UnlessTrusted`). -/
inductive AskForApproval
| never
| onRequest
| onFailure
| unlessTrusted
deriving DecidableEq, Repr

/-- `crate::tools::sandboxing::ExecApprovalRequirement` (variants as matched
in `ToolOrchestrator::run`). -/
inductive ExecApprovalRequirement
| skipApproval
| forbidden (reason : String)
| needsApproval (reason : Option String)
deriving DecidableEq, Repr

/-- `crate::exec::SandboxType`; `noSandbox` is `SandboxType::None`.  The
other platform sandboxes are opaque to the orchestrator. -/
inductive SandboxType
| noSandbox
| macosSeatbelt
| linuxSeccomp
deriving DecidableEq, Repr

/-- `crate::error::SandboxErr`: the orchestrator only distinguishes
`Denied { output }`; the `ExecToolCallOutput` it preserves is modelled as an
opaque string. -/
inductive SandboxErr
| denied (output : String)
| otherSandboxErr (msg : String)
deriving DecidableEq, Repr

/-- `crate::error::CodexErr`, with the variants the four files construct or
match (`Sandbox`, `Fatal`); everything else is collapsed into `otherErr`. -/
inductive CodexErr
| sandbox (e : SandboxErr)
| fatal (msg : String)
| otherErr (msg : String)
deriving DecidableEq, Repr

/-- `crate::tools::sandboxing::ToolError` as used by the orchestrator:
`Rejected` and pass-through `Codex` errors. -/
inductive ToolError
| codex (e : CodexErr)
| rejected (reason : String)
deriving DecidableEq, Repr

/-- `crate::tools::sandboxing::SandboxOverride`. -/
inductive SandboxOverride
| bypassSandboxFirstAttempt
| noOverride
deriving DecidableEq, Repr

/-- A `SandboxAttempt` as handed to `ToolRuntime::run`, reduced to the two
fields the retry-semantics claims observe: the sandbox type and the
`codex_linux_sandbox_exe` (the policy, manager and cwd references are the
same fixed turn context in both attempts). -/
structure SandboxAttempt where
  sandbox : SandboxType
  codex_linux_sandbox_exe : Option String
deriving DecidableEq, Repr

/-- A model of the `ToolRuntime` trait object plus the decisions the user
returns on its approval prompts.  `exec_approval_requirement` is the
tool-declared requirement (`None` falls back to the turn default);
`first_run`/`second_run` give the outcome of `tool.run` on the first and the
escalated attempt, as functions of the attempt actually passed. -/
structure ToolRuntimeModel (Out : Type) where
  exec_approval_requirement : Option ExecApprovalRequirement
  initial_approval : ReviewDecision
  retry_approval : ReviewDecision
  escalate_on_failure : Bool
  wants_no_sandbox_approval : AskForApproval → Bool
  should_bypass_approval : AskForApproval → Bool → Bool
  sandbox_mode_for_first_attempt : SandboxOverride
  first_run : SandboxAttempt → Except ToolError Out
  second_run : SandboxAttempt → Except ToolError Out

/-- The pieces of `TurnContext` the orchestrator reads.
`default_requirement` stands for `default_exec_approval_requirement(policy,
sandbox_policy)` and `select_initial` for
`SandboxManager::select_initial(policy, preference)`; both functions live in
files outside this snapshot, so their results are taken as inputs. -/
structure TurnCtxModel where
  default_requirement : ExecApprovalRequirement
  select_initial : SandboxType
  codex_linux_sandbox_exe : Option String

/-- Is the review decision one of the approved variants (lines 98-100)? -/
def isApprovedDecision : ReviewDecision → Bool
| .denied => false
| .abort => false
| _ => true

/-- The initial attempt of `ToolOrchestrator::run` (lines 109-124). -/
def initialAttempt {Out : Type} (tool : ToolRuntimeModel Out) (ctx : TurnCtxModel) :
    SandboxAttempt :=
  let initialSandbox :=
    match tool.sandbox_mode_for_first_attempt with
    | .bypassSandboxFirstAttempt => SandboxType.noSandbox
    | .noOverride => ctx.select_initial
  { sandbox := initialSandbox, codex_linux_sandbox_exe := ctx.codex_linux_sandbox_exe }

/-- The escalated attempt (lines 197-203): sandbox `None` and a null
`codex_linux_sandbox_exe`. -/
def escalatedAttempt : SandboxAttempt :=
  { sandbox := SandboxType.noSandbox, codex_linux_sandbox_exe := none }

/-- Steps 2 and 3 of `ToolOrchestrator::run` (lines 108-228), from the point
where approval has been settled.  Returns the result together with the list
of attempts actually executed. -/
def runAttempts {Out : Type} (tool : ToolRuntimeModel Out) (ctx : TurnCtxModel)
    (policy : AskForApproval) (already_approved : Bool) :
    Except ToolError Out × List SandboxAttempt :=
  match tool.first_run (initialAttempt tool ctx) with
  | .ok out => (.ok out, [initialAttempt tool ctx])
  | .error (.codex (.sandbox (.denied output))) =>
    if !tool.escalate_on_failure then
      (.error (.codex (.sandbox (.denied output))), [initialAttempt tool ctx])
    else if !tool.wants_no_sandbox_approval policy then
      (.error (.codex (.sandbox (.denied output))), [initialAttempt tool ctx])
    else if !tool.should_bypass_approval policy already_approved &&
        !isApprovedDecision tool.retry_approval then
      (.error (.rejected "rejected by user"), [initialAttempt tool ctx])
    else
      (tool.second_run escalatedAttempt, [initialAttempt tool ctx, escalatedAttempt])
  | .error e => (.error e, [initialAttempt tool ctx])

/-- The requirement the orchestrator settles on (line 55):
`tool.exec_approval_requirement(req).unwrap_or_else(default)`. -/
def resolvedRequirement {Out : Type} (tool : ToolRuntimeModel Out) (ctx : TurnCtxModel) :
    ExecApprovalRequirement :=
  tool.exec_approval_requirement.getD ctx.default_requirement

/-- `ToolOrchestrator::run` (lines 35-229): approval, first attempt under
the selected sandbox, and the unsandboxed retry on sandbox denial. -/
def orchestratorRun {Out : Type} (tool : ToolRuntimeModel Out) (ctx : TurnCtxModel)
    (policy : AskForApproval) : Except ToolError Out × List SandboxAttempt :=
  match resolvedRequirement tool ctx with
  | .forbidden reason => (.error (.rejected reason), [])
  | .skipApproval => runAttempts tool ctx policy false
  | .needsApproval _ =>
    if isApprovedDecision tool.initial_approval then runAttempts tool ctx policy true
    else (.error (.rejected "rejected by user"), [])

/-! ### Tool router (`core/src/tools/router.rs`) -/

/-- `crate::function_tool::FunctionCallError`; the enum's own file is outside
the snapshot, its variants are those matched in `router.rs` and
`stream_events_utils.rs`. -/
inductive FunctionCallError
| fatal (msg : String)
| missingLocalShellCallId
| respondToModel (msg : String)
deriving DecidableEq, Repr

/-- Modelled from the spec: the `Display` implementation of
`FunctionCallError` (used by `err.to_string()` in `failure_response`) is
outside the snapshot.  The reducer's guardrail branch fixes the
`MissingLocalShellCallId` text; the message-carrying variants stringify to
their message. -/
def FunctionCallError.toMessage : FunctionCallError → String
| .fatal m => m
| .missingLocalShellCallId => "LocalShellCall without call_id or id"
| .respondToModel m => m

/-- `crate::sandboxing::SandboxPermissions`, as constructed by the router. -/
inductive SandboxPermissions
| useDefault
deriving DecidableEq, Repr

/-- `codex_protocol::models::ShellToolCallParams` as built in
`ToolRouter::build_tool_call` (lines 141-147). -/
structure ShellToolCallParams where
  command : List String
  workdir : Option String
  timeout_ms : Option Nat
  sandbox_permissions : Option SandboxPermissions
  justification : Option String
deriving DecidableEq, Repr

/-- `crate::tools::context::ToolPayload`, with the variants the router
builds. -/
inductive ToolPayload
| function (arguments : String)
| custom (input : String)
| localShell (params : ShellToolCallParams)
| mcp (server tool raw_arguments : String)
deriving DecidableEq, Repr

/-- `crate::tools::router::ToolCall`. -/
structure ToolCall where
  tool_name : String
  call_id : String
  payload : ToolPayload
deriving DecidableEq, Repr

/-- `ToolRouter::build_tool_call` (lines 59-158).  `parseMcp` stands for
`session.parse_mcp_tool_name`, a `Session` method outside the snapshot:
`some (server, tool)` exactly when the name parses as an MCP tool. -/
def buildToolCall (parseMcp : String → Option (String × String)) :
    ResponseItem → Except FunctionCallError (Option ToolCall)
| .functionCall _id name arguments call_id =>
  match parseMcp name with
  | some (server, tool) =>
    .ok (some { tool_name := name, call_id := call_id,
                payload := .mcp server tool arguments })
  | none =>
    .ok (some { tool_name := name, call_id := call_id,
                payload := .function arguments })
| .customToolCall _id call_id name input _status =>
  .ok (some { tool_name := name, call_id := call_id, payload := .custom input })
| .localShellCall id call_id _status action =>
  match (match call_id with | some c => some c | none => id) with
  | none => .error .missingLocalShellCallId
  | some final_call_id =>
    match action with
    | .exec e =>
      let params : ShellToolCallParams :=
        { command := e.command, workdir := e.working_directory,
          timeout_ms := e.timeout_ms, sandbox_permissions := some .useDefault,
          justification := none }
      .ok (some { tool_name := "local_shell", call_id := final_call_id,
                  payload := .localShell params })
| .message _ _ _ _ _ => .ok none
| .functionCallOutput _ _ => .ok none
| .customToolCallOutput _ _ => .ok none
| .reasoning _ => .ok none
| .webSearchCall => .ok none
| .ghostSnapshot => .ok none
| .compaction => .ok none
| .other => .ok none

/-- Modelled from the spec: `mcp_types::CallToolResult` and the conversion
`FunctionCallOutputPayload::from` it feeds are outside the snapshot; the
result is modelled together with the payload its conversion produces. -/
structure CallToolResult where
  asPayload : FunctionCallOutputPayload
deriving DecidableEq, Repr

/-- The `Result<CallToolResult, String>` carried by `McpToolCallOutput`. -/
inductive McpResult
| okResult (r : CallToolResult)
| errResult (e : String)
deriving DecidableEq, Repr

/-- `codex_protocol::models::ResponseInputItem`, with the variants the
sources construct or match; the remaining variants are collapsed into
`otherInput` (they map to `None` in `response_input_to_response_item`). -/
inductive ResponseInputItem
| functionCallOutput (call_id : String) (output : FunctionCallOutputPayload)
| customToolCallOutput (call_id : String) (output : String)
| mcpToolCallOutput (call_id : String) (result : McpResult)
| otherInput
deriving DecidableEq, Repr

/-- Does the payload output a custom tool call output
(`matches!(payload, ToolPayload::Custom)` on line 173)? -/
def payloadOutputsCustom : ToolPayload → Bool
| .custom _ => true
| _ => false

/-- `ToolRouter::failure_response` (lines 225-246). -/
def failureResponse (call_id : String) (payload_outputs_custom : Bool)
    (err : FunctionCallError) : ResponseInputItem :=
  let message := err.toMessage
  if payload_outputs_custom then .customToolCallOutput call_id message
  else .functionCallOutput call_id { content := message, success := some false }

/-- `ToolRouter::dispatch_tool_call` (lines 160-223).  `registryResult`
stands for the outcome of `self.registry.dispatch(invocation)`; the registry
lives outside the snapshot. -/
def dispatchToolCall (registryResult : Except FunctionCallError ResponseInputItem)
    (call : ToolCall) : Except FunctionCallError ResponseInputItem :=
  match registryResult with
  | .ok response => .ok response
  | .error (.fatal message) => .error (.fatal message)
  | .error err =>
    .ok (failureResponse call.call_id (payloadOutputsCustom call.payload) err)

/-! ### Stream reducer (`core/src/stream_events_utils.rs`) -/

/-- `response_input_to_response_item` (lines 273-303). -/
def responseInputToResponseItem : ResponseInputItem → Option ResponseItem
| .functionCallOutput call_id output => some (.functionCallOutput call_id output)
| .customToolCallOutput call_id output => some (.customToolCallOutput call_id output)
| .mcpToolCallOutput call_id result =>
  let output : FunctionCallOutputPayload :=
    match result with
    | .okResult r => r.asPayload
    | .errResult err => { content := err, success := some false }
  some (.functionCallOutput call_id output)
| .otherInput => none

/-- `handle_non_tool_response_item` (lines 168-259) minus its logging:
`parse_turn_item` is a crate function outside the snapshot, taken as a
parameter over an abstract turn-item type. -/
def handleNonToolResponseItem {TI : Type} (parseTurnItem : ResponseItem → Option TI) :
    ResponseItem → Option TI
| .message a b c d e => parseTurnItem (.message a b c d e)
| .reasoning c => parseTurnItem (.reasoning c)
| .webSearchCall => parseTurnItem .webSearchCall
| .functionCallOutput _ _ => none
| .customToolCallOutput _ _ => none
| _ => none

/-- `last_assistant_message_from_item` (lines 261-271). -/
def lastAssistantMessageFromItem : ResponseItem → Option String
| .message _ role content _ _ =>
  if role = "assistant" then
    content.reverse.findSome? (fun ci =>
      match ci with
      | .outputText t => some t
      | _ => none)
  else none
| _ => none

/-- The `OutputItemResult` of the reducer; the in-flight future is modelled
by whether one was queued. -/
structure OutputItemResult where
  last_agent_message : Option String := none
  needs_follow_up : Bool := false
  tool_future_queued : Bool := false
deriving DecidableEq, Repr

/-- The session effects of one reducer step, in order: items recorded to
history, `tool_failed` telemetry events, the reasoning content stored, and
the lifecycle events emitted. -/
structure ReducerEffects where
  recorded : List ResponseItem := []
  tool_failed_logs : List (String × String) := []
  reasoning_stored : Option String := none
  started_events : Nat := 0
  completed_events : Nat := 0
deriving DecidableEq, Repr

/-- `handle_output_item_done` (lines 43-166).  `previously_active` models
`previously_active_item`; the result couples the returned
`OutputItemResult` with the session effects. -/
def handleOutputItemDone {TI : Type} (parseMcp : String → Option (String × String))
    (parseTurnItem : ResponseItem → Option TI) (item : ResponseItem)
    (previously_active : Option TI) :
    Except CodexErr (OutputItemResult × ReducerEffects) :=
  match buildToolCall parseMcp item with
  | .ok (some _call) =>
    .ok ({ needs_follow_up := true, tool_future_queued := true },
         { recorded := [item] })
  | .ok none =>
    let reasoningStored :=
      match item with
      | .message _ role _ rcf _ => if role = "assistant" then rcf else none
      | _ => none
    let ti := handleNonToolResponseItem parseTurnItem item
    let started := if ti.isSome ∧ previously_active.isNone then 1 else 0
    let completed := if ti.isSome then 1 else 0
    .ok ({ last_agent_message := lastAssistantMessageFromItem item },
         { recorded := [item], reasoning_stored := reasoningStored,
           started_events := started, completed_events := completed })
  | .error .missingLocalShellCallId =>
    let msg := "LocalShellCall without call_id or id"
    let response := ResponseInputItem.functionCallOutput "" { content := msg }
    let recorded := [item] ++
      (match responseInputToResponseItem response with
       | some ri => [ri]
       | none => [])
    .ok ({ needs_follow_up := true },
         { recorded := recorded, tool_failed_logs := [("local_shell", msg)] })
  | .error (.respondToModel message) =>
    let response := ResponseInputItem.functionCallOutput "" { content := message }
    let recorded := [item] ++
      (match responseInputToResponseItem response with
       | some ri => [ri]
       | none => [])
    .ok ({ needs_follow_up := true }, { recorded := recorded })
  | .error (.fatal message) => .error (.fatal message)

/-! ### Derived notions used in the statements below -/

/-- Is the history item one of the three tool-call variants routed through
`push_tool_call_message`? -/
def isToolCallItem : ResponseItem → Bool
| .functionCall _ _ _ _ => true
| .localShellCall _ _ _ _ => true
| .customToolCall _ _ _ _ _ => true
| _ => false

/-- The tool-call JSON a tool-call history item is converted to by the
corresponding arm of the assembly loop (junk on other items). -/
def itemToolCallJson : ResponseItem → ToolCallJson
| .functionCall _ name arguments call_id => .function call_id name arguments
| .localShellCall id _ status action => .localShell (id.getD "") status action
| .customToolCall id call_id name input _ => .custom (id.getD call_id) name input
| _ => .function "" "" ""

/-- The shape of a synthesized assistant-with-tool_calls wrapper: role
`assistant`, `content: null`, a `tool_calls` array and a `reasoning_content`
string.  `freshToolCallMsg tc r` is definitionally `wrapMsg [tc] (r.getD "")`
and merging preserves this shape. -/
def wrapMsg (tcs : List ToolCallJson) (s : String) : Msg :=
  { role := "assistant", content := JContent.null, reasoning_content := some s,
    tool_calls := some tcs }

/-- The id `X` of assistant message number `i` is uncovered: the message
carries `tool_calls` containing `X`, the scan of the tool messages that
follow reaches a non-tool boundary, and no scanned tool message responds to
`X`.  This is the failure condition named by the validation claim. -/
def UncoveredAt (msgs : List Msg) (i : Nat) (X : String) : Prop :=
  ∃ m tcs, msgs[i]? = some m ∧ m.role = "assistant" ∧ m.tool_calls = some tcs ∧
    X ∈ tcs.map ToolCallJson.id ∧ (scanTools (msgs.drop (i+1))).2 = true ∧
    X ∉ (scanTools (msgs.drop (i+1))).1

/-- Some message at index `lo` or beyond leaves `X` uncovered. -/
def UncoveredFrom (msgs : List Msg) (lo : Nat) (X : String) : Prop :=
  ∃ i, lo ≤ i ∧ UncoveredAt msgs i X

/-- Some assistant message of the assembled output leaves `X` uncovered. -/
def Uncovered (msgs : List Msg) (X : String) : Prop :=
  ∃ i, UncoveredAt msgs i X

/-- Does a synthesized response input carry `success: false`, as the
dispatch claim asserts of every failure output?  Only a
`FunctionCallOutput` has a `success` field at all. -/
def carriesSuccessFalse : ResponseInputItem → Bool
| .functionCallOutput _ output => output.success == some false
| _ => false

/-- The `ShellToolCallParams` the router builds for an exec action. -/
def shellParamsOf (e : LocalShellExecAction) : ShellToolCallParams :=
  { command := e.command, workdir := e.working_directory, timeout_ms := e.timeout_ms,
    sandbox_permissions := some .useDefault, justification := none }

/-- Erase the `call_id` field of every `LocalShellCall`, leaving everything
else untouched; the assembler never reads that field. -/
def scrubLsc : ResponseItem → ResponseItem
| .localShellCall id _ status action => .localShellCall id none status action
| x => x

/-- The approval phase lets execution reach the first attempt: the
requirement is not `Forbidden`, and a `NeedsApproval` prompt was not
denied or aborted. -/
def approvalPhasePasses {Out : Type} (tool : ToolRuntimeModel Out) (ctx : TurnCtxModel) : Prop :=
  match resolvedRequirement tool ctx with
  | .forbidden _ => False
  | .skipApproval => True
  | .needsApproval _ => isApprovedDecision tool.initial_approval = true

/-- The value of `already_approved` when the first attempt runs (set only
after a successful `NeedsApproval` prompt, line 104). -/
def alreadyApprovedAfterPhase {Out : Type} (tool : ToolRuntimeModel Out)
    (ctx : TurnCtxModel) : Bool :=
  match resolvedRequirement tool ctx with
  | .needsApproval _ => true
  | _ => false

/-- The first attempt failed with a sandbox denial. -/
def firstAttemptDenied {Out : Type} (tool : ToolRuntimeModel Out) (ctx : TurnCtxModel) : Prop :=
  ∃ output, tool.first_run (initialAttempt tool ctx) =
    .error (.codex (.sandbox (.denied output)))

/-- Fixture: a tool whose retry approval the user denies — sandbox denial,
escalation allowed, policy allows the unsandboxed retry, but
`should_bypass_approval` is false and the retry prompt answers `Denied`. -/
def retryDeniedTool : ToolRuntimeModel String :=
  { exec_approval_requirement := some .skipApproval,
    initial_approval := .approved,
    retry_approval := .denied,
    escalate_on_failure := true,
    wants_no_sandbox_approval := fun _ => true,
    should_bypass_approval := fun _ _ => false,
    sandbox_mode_for_first_attempt := .noOverride,
    first_run := fun _ => .error (.codex (.sandbox (.denied "denied-output"))),
    second_run := fun _ => .ok "done" }

/-- Fixture: the S5 scenario — retry approval granted, second attempt
succeeds. -/
def retryApprovedTool : ToolRuntimeModel String :=
  { exec_approval_requirement := some (.needsApproval none),
    initial_approval := .approved,
    retry_approval := .approvedForSession,
    escalate_on_failure := true,
    wants_no_sandbox_approval := fun _ => true,
    should_bypass_approval := fun _ _ => false,
    sandbox_mode_for_first_attempt := .noOverride,
    first_run := fun _ => .error (.codex (.sandbox (.denied "denied-output"))),
    second_run := fun _ => .ok "done" }

/-- Fixture: a turn context with a platform sandbox selected and a linux
sandbox helper configured. -/
def fixtureCtx : TurnCtxModel :=
  { default_requirement := .skipApproval,
    select_initial := .linuxSeccomp,
    codex_linux_sandbox_exe := some "/usr/bin/codex-linux-sandbox" }

/-! ### C9 — the `MissingLocalShellCallId` guardrail of the reducer -/

/-- C9: when `build_tool_call` fails with `MissingLocalShellCallId`,
`handle_output_item_done` records the original item, then records a
`FunctionCallOutput` with empty `call_id` and content exactly
`"LocalShellCall without call_id or id"`, sets `needs_follow_up`, and logs
`tool_failed("local_shell", msg)`. -/
theorem C9_missing_local_shell_guardrail {TI : Type}
    (parseMcp : String → Option (String × String))
    (parseTurnItem : ResponseItem → Option TI)
    (item : ResponseItem) (previously_active : Option TI)
    (h : buildToolCall parseMcp item = .error .missingLocalShellCallId) :
    handleOutputItemDone parseMcp parseTurnItem item previously_active =
      .ok ({ needs_follow_up := true },
           { recorded := [item, .functionCallOutput ""
               { content := "LocalShellCall without call_id or id" }],
             tool_failed_logs :=
               [("local_shell", "LocalShellCall without call_id or id")] }) := by
  unfold handleOutputItemDone
  rw [h]
  rfl

/-- Witness for C9 at the S6 item: a `LocalShellCall` with neither `id` nor
`call_id`. -/
theorem C9_missing_local_shell_guardrail_witness :
    handleOutputItemDone (fun _ => none) (fun _ => (none : Option Unit))
        (.localShellCall none none "in_progress" (.exec { command := ["ls"] })) none =
      .ok ({ needs_follow_up := true },
           { recorded := [.localShellCall none none "in_progress" (.exec { command := ["ls"] }),
               .functionCallOutput ""
                 { content := "LocalShellCall without call_id or id" }],
             tool_failed_logs :=
               [("local_shell", "LocalShellCall without call_id or id")] }) :=
  C9_missing_local_shell_guardrail (fun _ => none) (fun _ => none)
    (.localShellCall none none "in_progress" (.exec { command := ["ls"] })) none rfl

/-! ### C7 — classification in `ToolRouter::build_tool_call` -/

/-- C7: `build_tool_call` classifies items exactly as described — MCP-parsed
function calls to `Mcp`, other function calls to `Function`, custom calls to
`Custom`, local shell calls to `LocalShell` with `call_id` preferred over
`id` and `MissingLocalShellCallId` when both are absent, and every other
variant to `None`. -/
theorem C7_build_tool_call_classification
    (parseMcp : String → Option (String × String)) :
    (∀ id name arguments call_id server tool,
      parseMcp name = some (server, tool) →
      buildToolCall parseMcp (.functionCall id name arguments call_id) =
        .ok (some { tool_name := name, call_id := call_id,
                    payload := .mcp server tool arguments }))
    ∧ (∀ id name arguments call_id, parseMcp name = none →
      buildToolCall parseMcp (.functionCall id name arguments call_id) =
        .ok (some { tool_name := name, call_id := call_id,
                    payload := .function arguments }))
    ∧ (∀ id call_id name input status,
      buildToolCall parseMcp (.customToolCall id call_id name input status) =
        .ok (some { tool_name := name, call_id := call_id, payload := .custom input }))
    ∧ (∀ id call_id status e,
      buildToolCall parseMcp (.localShellCall id (some call_id) status (.exec e)) =
        .ok (some { tool_name := "local_shell", call_id := call_id,
                    payload := .localShell (shellParamsOf e) }))
    ∧ (∀ i status e,
      buildToolCall parseMcp (.localShellCall (some i) none status (.exec e)) =
        .ok (some { tool_name := "local_shell", call_id := i,
                    payload := .localShell (shellParamsOf e) }))
    ∧ (∀ status action,
      buildToolCall parseMcp (.localShellCall none none status action) =
        .error .missingLocalShellCallId)
    ∧ (∀ item, isToolCallItem item = false →
      buildToolCall parseMcp item = .ok none) := by
  refine ⟨?_, ?_, ?_, ?_, ?_, ?_, ?_⟩
  · intro id name arguments call_id server tool h
    simp [buildToolCall, h]
  · intro id name arguments call_id h
    simp [buildToolCall, h]
  · intro id call_id name input status
    rfl
  · intro id call_id status e
    rfl
  · intro i status e
    rfl
  · intro status action
    rfl
  · intro item h
    cases item <;> first
      | rfl
      | simp [isToolCallItem] at h

/-- Witness for C7: one MCP-parsed function call, one plain function call,
one id-less local shell call, and one non-call item. -/
theorem C7_build_tool_call_classification_witness :
    buildToolCall (fun n => if n = "srv__tool" then some ("srv", "tool") else none)
        (.functionCall none "srv__tool" "args" "c1") =
      .ok (some { tool_name := "srv__tool", call_id := "c1",
                  payload := .mcp "srv" "tool" "args" })
    ∧ buildToolCall (fun _ => none) (.functionCall none "shell" "argx" "c2") =
      .ok (some { tool_name := "shell", call_id := "c2", payload := .function "argx" })
    ∧ buildToolCall (fun _ => none)
        (.localShellCall none none "completed" (.exec { command := ["ls"] })) =
      .error .missingLocalShellCallId
    ∧ buildToolCall (fun _ => none) .webSearchCall = .ok none := by
  refine ⟨?_, ?_, ?_, ?_⟩
  · exact (C7_build_tool_call_classification _).1 none "srv__tool" "args" "c1" "srv" "tool" rfl
  · exact (C7_build_tool_call_classification _).2.1 none "shell" "argx" "c2" rfl
  · exact (C7_build_tool_call_classification _).2.2.2.2.2.1 "completed"
      (.exec { command := ["ls"] })
  · exact (C7_build_tool_call_classification _).2.2.2.2.2.2 .webSearchCall rfl

/-! ### C8 — failure synthesis in `ToolRouter::dispatch_tool_call` -/

/-- Counterexample to C8 as stated: on a `Custom`-payload call, a non-fatal
handler error is turned into a `CustomToolCallOutput`, which carries the
stringified error but has no `success` field at all — contradicting the
claim that every synthesized failure output carries `success: false`. -/
theorem C8_custom_failure_cex :
    dispatchToolCall (.error (.respondToModel "boom"))
        { tool_name := "mytool", call_id := "c9", payload := .custom "inp" } =
      .ok (.customToolCallOutput "c9" "boom")
    ∧ carriesSuccessFalse (.customToolCallOutput "c9" "boom") = false := by
  exact ⟨rfl, rfl⟩

/-- C8 (amended): a `Fatal` handler error propagates unchanged; any other
handler error returns `Ok` with a synthesized failure output carrying the
stringified error — a `FunctionCallOutput` with `success: false` for
non-`Custom` payloads, a `CustomToolCallOutput` (which has no success flag)
for `Custom` payloads. -/
theorem C8_dispatch_failure_synthesis
    (registryResult : Except FunctionCallError ResponseInputItem) (call : ToolCall) :
    (∀ m, registryResult = .error (.fatal m) →
      dispatchToolCall registryResult call = .error (.fatal m))
    ∧ (∀ err, registryResult = .error err → (∀ m, err ≠ .fatal m) →
      dispatchToolCall registryResult call =
        .ok (if payloadOutputsCustom call.payload then
               .customToolCallOutput call.call_id err.toMessage
             else
               .functionCallOutput call.call_id
                 { content := err.toMessage, success := some false })) := by
  constructor
  · intro m h
    rw [h]
    rfl
  · intro err h hn
    rw [h]
    cases err with
    | fatal m => exact absurd rfl (hn m)
    | missingLocalShellCallId => rfl
    | respondToModel m => rfl

/-- Witness for C8: fatal propagation, and a non-custom failure carrying
`success: false`. -/
theorem C8_dispatch_failure_synthesis_witness :
    dispatchToolCall (.error (.fatal "dead"))
        { tool_name := "t", call_id := "c1", payload := .function "a" } =
      .error (.fatal "dead")
    ∧ dispatchToolCall (.error (.respondToModel "nope"))
        { tool_name := "t", call_id := "c1", payload := .function "a" } =
      .ok (.functionCallOutput "c1" { content := "nope", success := some false }) := by
  constructor
  · exact (C8_dispatch_failure_synthesis (.error (.fatal "dead"))
      { tool_name := "t", call_id := "c1", payload := .function "a" }).1 "dead" rfl
  · exact (C8_dispatch_failure_synthesis (.error (.respondToModel "nope"))
      { tool_name := "t", call_id := "c1", payload := .function "a" }).2
      (.respondToModel "nope") rfl (fun m h => FunctionCallError.noConfusion h)

/-! ### C6 — duplicate assistant suppression -/

/-- Counterexample to C6 as stated: two adjacent assistant messages with
identical text `"hi"` yield TWO emitted assistant messages, not one.  Every
assistant `Message` item is emitted through the early-returning DeepSeek
branch (chat.rs line 232-262), so the duplicate-suppression comparison at
lines 299-306 is never reached for assistant items. -/
theorem C6_duplicate_assistant_cex :
    assembleMessages "inst" none
      [.message none "assistant" [.outputText "hi"] none none,
       .message none "assistant" [.outputText "hi"] none none] =
      [systemMsg "inst",
       { role := "assistant", content := .str "hi", reasoning_content := some "" },
       { role := "assistant", content := .str "hi", reasoning_content := some "" }] := by
  decide

/-- C6 (amended): an assistant `Message` item always appends exactly one
assistant message, whatever the previously emitted assistant text was; the
duplicate-suppression comparison is unreachable for assistant items and the
`last_assistant_text` register is never even updated. -/
theorem C6_assistant_always_emitted (rc : Option String)
    (anchor : Nat → Option String) (st : AsmState) (idx : Nat)
    (id : Option String) (content : List ContentItem)
    (rcf : Option String) (tcs : Option (List ToolCallJson)) :
    processItem rc anchor st idx (.message id "assistant" content rcf tcs) =
      { st with messages := st.messages ++
          [{ role := "assistant", content := .str (contentParts content).text,
             reasoning_content := some (rc.getD ""),
             tool_calls := assistantToolCallsField tcs }] } := by
  rfl

/-! ### C3 — retry semantics of the orchestrator -/

/-- Counterexample to C3 as stated: the first attempt fails with
`SandboxErr::Denied`, `escalate_on_failure` holds and the policy permits the
unsandboxed retry, yet no second attempt runs — the retry re-approval prompt
(orchestrator.rs lines 164-195) answers `Denied` and the call returns
`Rejected("rejected by user")` after a single attempt. -/
theorem C3_retry_gate_cex :
    (orchestratorRun retryDeniedTool fixtureCtx .onFailure).2.length = 1
    ∧ retryDeniedTool.escalate_on_failure = true
    ∧ retryDeniedTool.wants_no_sandbox_approval .onFailure = true
    ∧ retryDeniedTool.first_run (initialAttempt retryDeniedTool fixtureCtx) =
        .error (.codex (.sandbox (.denied "denied-output")))
    ∧ (orchestratorRun retryDeniedTool fixtureCtx .onFailure).1 =
        .error (.rejected "rejected by user") := by
  exact ⟨rfl, rfl, rfl, rfl, rfl⟩

/-- Helper: characterization of when the attempt phase runs twice. -/
theorem runAttempts_two_iff {Out : Type} (tool : ToolRuntimeModel Out)
    (ctx : TurnCtxModel) (policy : AskForApproval) (ap : Bool) :
    (runAttempts tool ctx policy ap).2.length = 2 ↔
      firstAttemptDenied tool ctx ∧ tool.escalate_on_failure = true ∧
      tool.wants_no_sandbox_approval policy = true ∧
      (tool.should_bypass_approval policy ap = true ∨
       isApprovedDecision tool.retry_approval = true) := by
  unfold runAttempts firstAttemptDenied
  cases hfr : tool.first_run (initialAttempt tool ctx) with
  | ok out => simp [hfr]
  | error e =>
    cases e with
    | rejected r => simp [hfr]
    | codex ce =>
      cases ce with
      | fatal m => simp [hfr]
      | otherErr m => simp [hfr]
      | sandbox se =>
        cases se with
        | otherSandboxErr m => simp [hfr]
        | denied output =>
          cases hesc : tool.escalate_on_failure with
          | false => simp [hfr, hesc]
          | true =>
            cases hw : tool.wants_no_sandbox_approval policy with
            | false => simp [hfr, hw]
            | true =>
              cases hb : tool.should_bypass_approval policy ap with
              | true => simp [hfr, hesc, hw, hb]
              | false =>
                cases ha : isApprovedDecision tool.retry_approval with
                | true => simp [hfr, hesc, hw, hb, ha]
                | false => simp [hfr, hesc, hw, hb, ha]

/-- Helper: when the attempt phase runs twice, the second attempt is the
escalated one and its result is returned. -/
theorem runAttempts_two_shape {Out : Type} (tool : ToolRuntimeModel Out)
    (ctx : TurnCtxModel) (policy : AskForApproval) (ap : Bool)
    (h : (runAttempts tool ctx policy ap).2.length = 2) :
    (runAttempts tool ctx policy ap).2 = [initialAttempt tool ctx, escalatedAttempt] ∧
    (runAttempts tool ctx policy ap).1 = tool.second_run escalatedAttempt := by
  obtain ⟨⟨output, hfr⟩, hesc, hw, hor⟩ := (runAttempts_two_iff tool ctx policy ap).mp h
  have hcond : (!tool.should_bypass_approval policy ap &&
      !isApprovedDecision tool.retry_approval) = false := by
    rcases hor with hb | ha
    · simp [hb]
    · simp [ha]
  unfold runAttempts
  rw [hfr]
  simp [hesc, hw, hcond]

/-- Helper: a first-attempt error that is not a sandbox denial surfaces
unchanged, with no second attempt. -/
theorem runAttempts_other_error {Out : Type} (tool : ToolRuntimeModel Out)
    (ctx : TurnCtxModel) (policy : AskForApproval) (ap : Bool) (e : ToolError)
    (hfr : tool.first_run (initialAttempt tool ctx) = .error e)
    (hnd : ∀ output, e ≠ .codex (.sandbox (.denied output))) :
    (runAttempts tool ctx policy ap).1 = .error e ∧
    (runAttempts tool ctx policy ap).2.length = 1 := by
  unfold runAttempts
  rw [hfr]
  cases e with
  | rejected r => exact ⟨rfl, rfl⟩
  | codex ce =>
    cases ce with
    | fatal m => exact ⟨rfl, rfl⟩
    | otherErr m => exact ⟨rfl, rfl⟩
    | sandbox se =>
      cases se with
      | otherSandboxErr m => exact ⟨rfl, rfl⟩
      | denied output => exact absurd rfl (hnd output)

/-- C3 (amended): a failed first attempt leads to a second attempt iff the
error is `SandboxErr::Denied`, `escalate_on_failure` holds, the policy
permits an unsandboxed retry, AND the retry re-approval is either bypassed
or answered with an approval (a denied retry prompt surfaces
`Rejected("rejected by user")` without a second attempt); every first
attempt error other than a denial is returned unchanged, and the retry
always runs with sandbox `None` and a null `codex_linux_sandbox_exe`. -/
theorem C3_retry_gate_amended {Out : Type} (tool : ToolRuntimeModel Out)
    (ctx : TurnCtxModel) (policy : AskForApproval) :
    ((orchestratorRun tool ctx policy).2.length = 2 ↔
      approvalPhasePasses tool ctx ∧ firstAttemptDenied tool ctx ∧
      tool.escalate_on_failure = true ∧
      tool.wants_no_sandbox_approval policy = true ∧
      (tool.should_bypass_approval policy (alreadyApprovedAfterPhase tool ctx) = true ∨
       isApprovedDecision tool.retry_approval = true))
    ∧ ((orchestratorRun tool ctx policy).2.length = 2 →
        (orchestratorRun tool ctx policy).2 = [initialAttempt tool ctx, escalatedAttempt] ∧
        escalatedAttempt.sandbox = SandboxType.noSandbox ∧
        escalatedAttempt.codex_linux_sandbox_exe = none ∧
        (orchestratorRun tool ctx policy).1 = tool.second_run escalatedAttempt)
    ∧ (∀ e, approvalPhasePasses tool ctx →
        tool.first_run (initialAttempt tool ctx) = .error e →
        (∀ output, e ≠ .codex (.sandbox (.denied output))) →
        (orchestratorRun tool ctx policy).1 = .error e ∧
        (orchestratorRun tool ctx policy).2.length = 1) := by
  have hrun : orchestratorRun tool ctx policy =
      (match resolvedRequirement tool ctx with
       | .forbidden reason => (.error (.rejected reason), [])
       | .skipApproval => runAttempts tool ctx policy false
       | .needsApproval _ =>
         if isApprovedDecision tool.initial_approval then runAttempts tool ctx policy true
         else (.error (.rejected "rejected by user"), [])) := rfl
  cases hreq : resolvedRequirement tool ctx with
  | forbidden reason =>
    rw [hrun, hreq]
    refine ⟨?_, ?_, ?_⟩
    · simp [approvalPhasePasses, hreq]
    · intro h; simp at h
    · intro e hpass; simp [approvalPhasePasses, hreq] at hpass
  | skipApproval =>
    rw [hrun, hreq]
    have hap : alreadyApprovedAfterPhase tool ctx = false := by
      simp [alreadyApprovedAfterPhase, hreq]
    refine ⟨?_, ?_, ?_⟩
    · rw [hap]
      have hpass : approvalPhasePasses tool ctx := by
        simp [approvalPhasePasses, hreq]
      constructor
      · intro h
        exact ⟨hpass, (runAttempts_two_iff tool ctx policy false).mp h⟩
      · intro h
        exact (runAttempts_two_iff tool ctx policy false).mpr h.2
    · intro h
      obtain ⟨h1, h2⟩ := runAttempts_two_shape tool ctx policy false h
      exact ⟨h1, rfl, rfl, h2⟩
    · intro e _ hfr hnd
      exact runAttempts_other_error tool ctx policy false e hfr hnd
  | needsApproval reason =>
    rw [hrun, hreq]
    have hap : alreadyApprovedAfterPhase tool ctx = true := by
      simp [alreadyApprovedAfterPhase, hreq]
    have hpassiff : approvalPhasePasses tool ctx ↔ isApprovedDecision tool.initial_approval = true := by
      simp [approvalPhasePasses, hreq]
    by_cases hia : isApprovedDecision tool.initial_approval = true
    · rw [if_pos hia, hap]
      refine ⟨?_, ?_, ?_⟩
      · constructor
        · intro h
          exact ⟨hpassiff.mpr hia, (runAttempts_two_iff tool ctx policy true).mp h⟩
        · intro h
          exact (runAttempts_two_iff tool ctx policy true).mpr h.2
      · intro h
        obtain ⟨h1, h2⟩ := runAttempts_two_shape tool ctx policy true h
        exact ⟨h1, rfl, rfl, h2⟩
      · intro e _ hfr hnd
        exact runAttempts_other_error tool ctx policy true e hfr hnd
    · rw [if_neg hia]
      refine ⟨?_, ?_, ?_⟩
      · simp only [List.length_nil]
        constructor
        · intro h; simp at h
        · intro h
          exact absurd (hpassiff.mp h.1) hia
      · intro h; simp at h
      · intro e hpass
        exact absurd (hpassiff.mp hpass) hia

/-- Witness for C3 (amended), at the S5 fixture: initial approval granted,
sandbox denial, retry approved — two attempts run and the second attempt's
result is returned. -/
theorem C3_retry_gate_amended_witness :
    (orchestratorRun retryApprovedTool fixtureCtx .onFailure).2.length = 2
    ∧ (orchestratorRun retryApprovedTool fixtureCtx .onFailure).2 =
        [initialAttempt retryApprovedTool fixtureCtx, escalatedAttempt]
    ∧ (orchestratorRun retryApprovedTool fixtureCtx .onFailure).1 =
        retryApprovedTool.second_run escalatedAttempt := by
  have h2 : (orchestratorRun retryApprovedTool fixtureCtx .onFailure).2.length = 2 :=
    (C3_retry_gate_amended retryApprovedTool fixtureCtx .onFailure).1.mpr
      ⟨rfl, ⟨"denied-output", rfl⟩, rfl, rfl, Or.inr rfl⟩
  have hshape := (C3_retry_gate_amended retryApprovedTool fixtureCtx .onFailure).2.1 h2
  exact ⟨h2, hshape.1, hshape.2.2.2⟩

/-! ### C2 — grouping of consecutive tool calls -/

/-- Helper: when the last message is not a merge target (or there is none),
`push_tool_call_message` appends a fresh wrapper. -/
theorem pushToolCallMessage_fresh (messages : List Msg) (tc : ToolCallJson)
    (r : Option String)
    (h : ∀ m, messages.getLast? = some m → mergeTargetB m = false) :
    pushToolCallMessage messages tc r = messages ++ [freshToolCallMsg tc r] := by
  unfold pushToolCallMessage
  cases hl : messages.getLast? with
  | none => rfl
  | some m =>
    have hm := h m hl
    cases htc : m.tool_calls with
    | none => simp [htc]
    | some tcs =>
      have hneg : ¬(m.role = "assistant" ∧ m.content = JContent.null) := by
        intro hand
        rw [mergeTargetB, hand.1, hand.2, htc] at hm
        simp at hm
      simp only [htc]
      rw [if_neg hneg]

/-- Helper: when the last message is a merge target, `push_tool_call_message`
appends the call to its `tool_calls` array. -/
theorem pushToolCallMessage_merge (base : List Msg) (m : Msg)
    (tcs : List ToolCallJson) (tc : ToolCallJson) (r : Option String)
    (hrole : m.role = "assistant") (hcont : m.content = JContent.null)
    (htc : m.tool_calls = some tcs) :
    pushToolCallMessage (base ++ [m]) tc r =
      base ++ [applyMergeReasoning { m with tool_calls := some (tcs ++ [tc]) } r] := by
  unfold pushToolCallMessage
  simp only [List.getLast?_concat, htc, hrole, hcont, and_self, if_true,
    List.dropLast_concat]

/-- Helper: merging reasoning into a wrapper keeps the wrapper shape. -/
theorem applyMergeReasoning_wrap (tcs : List ToolCallJson) (s : String)
    (r : Option String) :
    ∃ s2, applyMergeReasoning (wrapMsg tcs s) r = wrapMsg tcs s2 := by
  cases r with
  | none => exact ⟨s, rfl⟩
  | some r0 => exact ⟨if s = "" then r0 else s ++ "\n" ++ r0, rfl⟩

/-- Helper: each of the three tool-call arms of the assembly loop routes its
call through `push_tool_call_message`. -/
theorem processItem_toolCall_messages (rc : Option String)
    (anchor : Nat → Option String) (st : AsmState) (idx : Nat)
    (it : ResponseItem) (h : isToolCallItem it = true) :
    (processItem rc anchor st idx it).messages =
      pushToolCallMessage st.messages (itemToolCallJson it) (anchor idx) := by
  cases it <;> first
    | rfl
    | simp [isToolCallItem] at h

/-- Helper: processing a run of tool-call items starting from a state whose
last message is a wrapper folds all the calls into that wrapper, in order. -/
theorem processItems_merge_run (rc : Option String) (anchor : Nat → Option String)
    (run : List ResponseItem) :
    ∀ (st : AsmState) (base : List Msg) (tcs : List ToolCallJson) (s : String)
      (idx : Nat),
    st.messages = base ++ [wrapMsg tcs s] →
    (∀ it ∈ run, isToolCallItem it = true) →
    ∃ s2, (processItems rc anchor st idx run).messages =
      base ++ [wrapMsg (tcs ++ run.map itemToolCallJson) s2] := by
  induction run with
  | nil =>
    intro st base tcs s idx hmsg _
    exact ⟨s, by simpa using hmsg⟩
  | cons it rest ih =>
    intro st base tcs s idx hmsg hall
    have hit := hall it (List.mem_cons_self it rest)
    have hrest : ∀ x ∈ rest, isToolCallItem x = true :=
      fun x hx => hall x (List.mem_cons_of_mem it hx)
    have hstep : (processItem rc anchor st idx it).messages =
        pushToolCallMessage st.messages (itemToolCallJson it) (anchor idx) :=
      processItem_toolCall_messages rc anchor st idx it hit
    rw [hmsg, pushToolCallMessage_merge base (wrapMsg tcs s) tcs
      (itemToolCallJson it) (anchor idx) rfl rfl rfl] at hstep
    obtain ⟨s2, hs2⟩ := applyMergeReasoning_wrap (tcs ++ [itemToolCallJson it]) s
      (anchor idx)
    rw [show ({ wrapMsg tcs s with
          tool_calls := some (tcs ++ [itemToolCallJson it]) } : Msg) =
        wrapMsg (tcs ++ [itemToolCallJson it]) s from rfl, hs2] at hstep
    obtain ⟨s3, hs3⟩ := ih (processItem rc anchor st idx it) base
      (tcs ++ [itemToolCallJson it]) s2 (idx + 1) hstep hrest
    refine ⟨s3, ?_⟩
    show (processItems rc anchor (processItem rc anchor st idx it) (idx + 1)
      rest).messages = _
    rw [hs3]
    simp

/-- C2: processing a run of consecutive tool-call items, starting from a
state whose last emitted message is not an open assistant-tool_calls wrapper
(which is what makes the run maximal on the left), appends exactly one
assistant message with `content: null` whose `tool_calls` array is the run's
calls in input order. -/
theorem C2_tool_call_grouping (rc : Option String) (anchor : Nat → Option String)
    (st : AsmState) (idx : Nat) (run : List ResponseItem)
    (hne : run ≠ [])
    (hall : ∀ it ∈ run, isToolCallItem it = true)
    (hlast : ∀ m, st.messages.getLast? = some m → mergeTargetB m = false) :
    ∃ s, (processItems rc anchor st idx run).messages =
      st.messages ++ [wrapMsg (run.map itemToolCallJson) s] := by
  cases run with
  | nil => exact absurd rfl hne
  | cons it rest =>
    have hit := hall it (List.mem_cons_self it rest)
    have hrest : ∀ x ∈ rest, isToolCallItem x = true :=
      fun x hx => hall x (List.mem_cons_of_mem it hx)
    have h1 : (processItem rc anchor st idx it).messages =
        st.messages ++ [wrapMsg [itemToolCallJson it] ((anchor idx).getD "")] := by
      rw [processItem_toolCall_messages rc anchor st idx it hit,
        pushToolCallMessage_fresh st.messages _ _ hlast]
      rfl
    obtain ⟨s2, hs2⟩ := processItems_merge_run rc anchor rest
      (processItem rc anchor st idx it) st.messages [itemToolCallJson it]
      ((anchor idx).getD "") (idx + 1) h1 hrest
    exact ⟨s2, hs2⟩

/-- Witness for C2: a function call followed by a custom call, starting
right after the system message, yield one wrapper with both calls. -/
theorem C2_tool_call_grouping_witness :
    ∃ s, (processItems none (fun _ => none) (initState "w") 1
        [.functionCall none "f" "a1" "c1",
         .customToolCall none "c2" "g" "inp" none]).messages =
      (initState "w").messages ++
        [wrapMsg [.function "c1" "f" "a1", .custom "c2" "g" "inp"] s] := by
  have h := C2_tool_call_grouping none (fun _ => none) (initState "w") 1
    [.functionCall none "f" "a1" "c1", .customToolCall none "c2" "g" "inp" none]
    (by simp) (by decide)
    (by
      intro m hm
      have : some (systemMsg "w") = some m := hm
      cases this
      rfl)
  exact h

/-! ### C5 — reasoning anchoring -/

/-- Counterexample to C5 as stated: a non-whitespace `Reasoning` item after
the last user message, anchored to the immediately preceding assistant
message, is accumulated in the anchor map but the emitted assistant message
carries NO `reasoning` field — the assistant arm (chat.rs lines 232-262)
returns before the anchor map is consulted at lines 317-322. -/
theorem C5_assistant_reasoning_cex :
    assembleMessages "inst" none
      [.message none "user" [.inputText "q"] none none,
       .message none "assistant" [.outputText "a"] none none,
       .reasoning (some [.text "think"])] =
      [systemMsg "inst",
       { role := "user", content := .str "q" },
       { role := "assistant", content := .str "a", reasoning := none,
         reasoning_content := some "" }] := by
  decide

/-- Helper: merging reasoning text never touches the `reasoning` key. -/
theorem applyMergeReasoning_reasoning (m : Msg) (r : Option String) :
    (applyMergeReasoning m r).reasoning = m.reasoning := by
  unfold applyMergeReasoning
  cases r <;> cases h : m.reasoning_content <;> simp

/-- Helper: `push_tool_call_message` never produces a `reasoning` key. -/
theorem mem_pushToolCallMessage_reasoning (messages : List Msg)
    (tc : ToolCallJson) (r : Option String)
    (h : ∀ m ∈ messages, m.reasoning = none) :
    ∀ m ∈ pushToolCallMessage messages tc r, m.reasoning = none := by
  intro m hm
  unfold pushToolCallMessage at hm
  cases hl : messages.getLast? with
  | none =>
    rw [hl] at hm
    rcases List.mem_append.mp hm with h1 | h1
    · exact h m h1
    · simp at h1; subst h1; rfl
  | some m0 =>
    rw [hl] at hm
    have hm0 : m0.reasoning = none :=
      h m0 (List.mem_of_mem_getLast? (Option.mem_def.mpr hl))
    cases htc : m0.tool_calls with
    | none =>
      simp only [htc] at hm
      rcases List.mem_append.mp hm with h1 | h1
      · exact h m h1
      · simp at h1; subst h1; rfl
    | some tcs =>
      simp only [htc] at hm
      by_cases hc : m0.role = "assistant" ∧ m0.content = JContent.null
      · rw [if_pos hc] at hm
        rcases List.mem_append.mp hm with h1 | h1
        · exact h m (List.dropLast_subset messages h1)
        · simp at h1
          subst h1
          rw [applyMergeReasoning_reasoning]
          exact hm0
      · rw [if_neg hc] at hm
        rcases List.mem_append.mp hm with h1 | h1
        · exact h m h1
        · simp at h1; subst h1; rfl

/-- Helper: the message-arm tail never produces a `reasoning` key when the
role is not `assistant` (and it is only ever reached with such roles). -/
theorem mem_processMessageTail_reasoning (anchor : Nat → Option String)
    (st : AsmState) (idx : Nat) (role text : String) (items : List CPart)
    (sawImage : Bool) (hrole : role ≠ "assistant")
    (h : ∀ m ∈ st.messages, m.reasoning = none) :
    ∀ m ∈ (processMessageTail anchor st idx role text items sawImage).messages,
      m.reasoning = none := by
  intro m hm
  simp only [processMessageTail] at hm
  split at hm
  next hev =>
    split at hm
    next hdup => exact absurd hdup.1 hrole
    next hdup =>
      rcases List.mem_append.mp hm with h1 | h1
      · exact h m (List.mem_of_mem_filter h1)
      · simp only [List.mem_singleton] at h1
        subst h1
        rfl
  next hev =>
    split at hm
    next hdup => exact absurd hdup.1 hrole
    next hdup =>
      rcases List.mem_append.mp hm with h1 | h1
      · exact h m h1
      · simp only [List.mem_singleton] at h1
        subst h1
        rfl

/-- Helper: no arm of the assembly loop produces a `reasoning` key. -/
theorem mem_processItem_reasoning (rc : Option String)
    (anchor : Nat → Option String) (st : AsmState) (idx : Nat)
    (item : ResponseItem) (h : ∀ m ∈ st.messages, m.reasoning = none) :
    ∀ m ∈ (processItem rc anchor st idx item).messages, m.reasoning = none := by
  intro m hm
  cases item with
  | message id role0 content rcf tool_calls =>
    simp only [processItem] at hm
    cases hmt : (if (if role0 = "developer" then "user" else role0) = "tool"
        then id else none) with
    | some call_id =>
      rw [hmt] at hm
      rcases List.mem_append.mp hm with h1 | h1
      · exact h m h1
      · simp at h1; subst h1; rfl
    | none =>
      rw [hmt] at hm
      by_cases hass : (if role0 = "developer" then "user" else role0) = "assistant"
      · rw [if_pos hass] at hm
        rcases List.mem_append.mp hm with h1 | h1
        · exact h m h1
        · simp at h1; subst h1; rfl
      · rw [if_neg hass] at hm
        exact mem_processMessageTail_reasoning _ st idx _ _ _ _ hass h m hm
  | functionCall i n a c =>
    exact mem_pushToolCallMessage_reasoning _ _ _ h m hm
  | localShellCall i c s a =>
    exact mem_pushToolCallMessage_reasoning _ _ _ h m hm
  | customToolCall i c n inp s =>
    exact mem_pushToolCallMessage_reasoning _ _ _ h m hm
  | functionCallOutput c o =>
    simp only [processItem] at hm
    rcases List.mem_append.mp hm with h1 | h1
    · exact h m h1
    · simp at h1; subst h1; rfl
  | customToolCallOutput c o =>
    simp only [processItem] at hm
    rcases List.mem_append.mp hm with h1 | h1
    · exact h m h1
    · simp at h1; subst h1; rfl
  | reasoning c => exact h m hm
  | webSearchCall => exact h m hm
  | ghostSnapshot => exact h m hm
  | compaction => exact h m hm
  | other => exact h m hm

/-- Helper: the whole loop preserves the absence of `reasoning` keys. -/
theorem mem_processItems_reasoning (rc : Option String)
    (anchor : Nat → Option String) (items : List ResponseItem) :
    ∀ (st : AsmState) (idx : Nat), (∀ m ∈ st.messages, m.reasoning = none) →
    ∀ m ∈ (processItems rc anchor st idx items).messages, m.reasoning = none := by
  induction items with
  | nil => intro st idx h; exact h
  | cons it rest ih =>
    intro st idx h
    exact ih (processItem rc anchor st idx it) (idx + 1)
      (mem_processItem_reasoning rc anchor st idx it h)

/-- C5 (amended): reasoning anchored to a preceding assistant message is
recorded in the anchor map but never emitted — no assembled message ever
carries a `reasoning` field, because the assistant arm returns before the
attachment point; reasoning anchored to an immediately following
`FunctionCall` or `LocalShellCall` IS emitted as `reasoning_content` on the
synthesized assistant-with-tool_calls wrapper. -/
theorem C5_reasoning_anchoring_amended :
    (∀ (instructions : String) (rc : Option String) (input : List ResponseItem),
      ∀ m ∈ assembleMessages instructions rc input, m.reasoning = none)
    ∧ (∀ (rc : Option String) (anchor : Nat → Option String) (st : AsmState)
        (idx : Nat) (r : String) (id : Option String) (name arguments call_id : String),
      anchor idx = some r →
      (∀ m, st.messages.getLast? = some m → mergeTargetB m = false) →
      (processItem rc anchor st idx (.functionCall id name arguments call_id)).messages =
        st.messages ++ [wrapMsg [.function call_id name arguments] r])
    ∧ (∀ (rc : Option String) (anchor : Nat → Option String) (st : AsmState)
        (idx : Nat) (r : String) (id call_id : Option String) (status : String)
        (action : LocalShellAction),
      anchor idx = some r →
      (∀ m, st.messages.getLast? = some m → mergeTargetB m = false) →
      (processItem rc anchor st idx (.localShellCall id call_id status action)).messages =
        st.messages ++ [wrapMsg [.localShell (id.getD "") status action] r]) := by
  refine ⟨?_, ?_, ?_⟩
  · intro instructions rc input m hm
    exact mem_processItems_reasoning rc (buildAnchorMap input) input
      (initState instructions) 0
      (by
        intro m0 hm0
        have h0 : m0 = systemMsg instructions := by simpa [initState] using hm0
        rw [h0]
        rfl)
      m hm
  · intro rc anchor st idx r id name arguments call_id ha hlast
    rw [processItem_toolCall_messages rc anchor st idx
        (.functionCall id name arguments call_id) rfl,
      pushToolCallMessage_fresh st.messages _ _ hlast, ha]
    rfl
  · intro rc anchor st idx r id call_id status action ha hlast
    rw [processItem_toolCall_messages rc anchor st idx
        (.localShellCall id call_id status action) rfl,
      pushToolCallMessage_fresh st.messages _ _ hlast, ha]
    rfl

/-- Witness for C5 (amended): the assembled assistant message of the
counterexample history carries no `reasoning` key, and a concrete anchored
function call receives `reasoning_content "plan"` on its wrapper. -/
theorem C5_reasoning_anchoring_amended_witness :
    ({ role := "assistant", content := .str "a", reasoning := none,
       reasoning_content := some "" } : Msg).reasoning = none
    ∧ (processItem none (fun i => if i = 1 then some "plan" else none)
        (initState "w") 1 (.functionCall none "f" "a1" "c1")).messages =
      (initState "w").messages ++ [wrapMsg [.function "c1" "f" "a1"] "plan"] := by
  constructor
  · exact C5_reasoning_anchoring_amended.1 "inst" none
      [.message none "user" [.inputText "q"] none none,
       .message none "assistant" [.outputText "a"] none none,
       .reasoning (some [.text "think"])]
      { role := "assistant", content := .str "a", reasoning := none,
        reasoning_content := some "" } (by decide)
  · exact C5_reasoning_anchoring_amended.2.1 none
      (fun i => if i = 1 then some "plan" else none) (initState "w") 1 "plan"
      none "f" "a1" "c1" rfl
      (by
        intro m hm
        have : some (systemMsg "w") = some m := hm
        cases this
        rfl)

/-! ### C4 — eviction of incomplete tool-call fragments -/

/-- Counterexample to C4 as stated: when the second user turn "Z" arrives
with `c2` pending, the `retain` call (chat.rs lines 271-274) strips EVERY
assistant message carrying `tool_calls` — including the already-answered
`c1` wrapper, which the claim says stays.  The assembled output keeps the
`c1` tool response but no assistant message at all. -/
theorem C4_eviction_cex :
    assembleMessages "inst" none
      [.message none "user" [.inputText "X"] none none,
       .functionCall none "f" "a1" "c1",
       .functionCallOutput "c1" { content := "A" },
       .message none "user" [.inputText "Y"] none none,
       .functionCall none "g" "a2" "c2",
       .message none "user" [.inputText "Z"] none none] =
      [systemMsg "inst",
       { role := "user", content := .str "X" },
       { role := "tool", content := .str "A", tool_call_id := some "c1" },
       { role := "user", content := .str "Y" },
       { role := "user", content := .str "Z" }] := by
  decide

/-- C4 (amended): when a user (or developer-rewritten) `Message` item is
processed while the pending set is non-empty and a last
assistant-with-tool_calls index is tracked, EVERY assistant message carrying
`tool_calls` is removed from the output (already-answered ones included) and
the pending set is cleared; assistant `Message` items return from the
DeepSeek branch before the check and never trigger eviction; on the S3
history the emitted messages are exactly system, user(X), user(Y). -/
theorem C4_eviction_amended :
    (∀ (rc : Option String) (anchor : Nat → Option String) (st : AsmState)
        (idx : Nat) (id : Option String) (content : List ContentItem)
        (rcf : Option String) (tcs : Option (List ToolCallJson)),
      st.pending ≠ [] →
      st.last_assistant_with_tool_calls_index.isSome = true →
      processItem rc anchor st idx (.message id "user" content rcf tcs) =
        { messages := st.messages.filter notAssistantWithToolCalls ++
            [{ role := "user",
               content := if (contentParts content).sawImage then
                 JContent.parts (contentParts content).items
               else JContent.str (contentParts content).text }],
          last_assistant_text := st.last_assistant_text,
          pending := [],
          last_assistant_with_tool_calls_index := none })
    ∧ (∀ (rc : Option String) (anchor : Nat → Option String) (st : AsmState)
        (idx : Nat) (id : Option String) (content : List ContentItem)
        (rcf : Option String) (tcs : Option (List ToolCallJson)),
      (processItem rc anchor st idx (.message id "assistant" content rcf tcs)).pending =
        st.pending
      ∧ (processItem rc anchor st idx
          (.message id "assistant" content rcf tcs)).last_assistant_with_tool_calls_index =
        st.last_assistant_with_tool_calls_index
      ∧ (processItem rc anchor st idx (.message id "assistant" content rcf tcs)).messages =
        st.messages ++
          [{ role := "assistant", content := .str (contentParts content).text,
             reasoning_content := some (rc.getD ""),
             tool_calls := assistantToolCallsField tcs }])
    ∧ assembleMessages "inst" none
        [.message none "user" [.inputText "X"] none none,
         .functionCall none "f" "a1" "c1",
         .message none "user" [.inputText "Y"] none none] =
      [systemMsg "inst",
       { role := "user", content := .str "X" },
       { role := "user", content := .str "Y" }] := by
  refine ⟨?_, ?_, ?_⟩
  · intro rc anchor st idx id content rcf tcs hp hi
    show processMessageTail anchor st idx "user" (contentParts content).text
      (contentParts content).items (contentParts content).sawImage = _
    simp [processMessageTail, hp, hi]
  · intro rc anchor st idx id content rcf tcs
    exact ⟨rfl, rfl, rfl⟩
  · decide

/-- Witness for C4 (amended): a pending `c1` wrapper is evicted by the next
user turn. -/
theorem C4_eviction_amended_witness :
    processItem none (fun _ => none)
        { messages := [systemMsg "i", wrapMsg [.function "c1" "f" "a1"] ""],
          last_assistant_text := none, pending := ["c1"],
          last_assistant_with_tool_calls_index := some 1 }
        2 (.message none "user" [.inputText "Y"] none none) =
      { messages := [systemMsg "i",
          wrapMsg [.function "c1" "f" "a1"] ""].filter notAssistantWithToolCalls ++
            [{ role := "user",
               content := if (contentParts [ContentItem.inputText "Y"]).sawImage then
                 JContent.parts (contentParts [ContentItem.inputText "Y"]).items
               else JContent.str (contentParts [ContentItem.inputText "Y"]).text }],
        last_assistant_text := none, pending := [],
        last_assistant_with_tool_calls_index := none } :=
  C4_eviction_amended.1 none (fun _ => none)
    { messages := [systemMsg "i", wrapMsg [.function "c1" "f" "a1"] ""],
      last_assistant_text := none, pending := ["c1"],
      last_assistant_with_tool_calls_index := some 1 }
    2 none [ContentItem.inputText "Y"] none none (by decide) rfl

/-! ### C10 — the LocalShellCall arm ignores `call_id` -/

/-- Helper: the last-emitted-role pre-pass never reads a `call_id`. -/
theorem lastEmittedRole_scrub (input : List ResponseItem) :
    lastEmittedRole (input.map scrubLsc) = lastEmittedRole input := by
  unfold lastEmittedRole
  rw [List.foldl_map]
  congr 1
  funext acc item
  cases item <;> rfl

/-- Helper: the last-user-index pre-pass never reads a `call_id`. -/
theorem lastUserIndex_scrub (input : List ResponseItem) :
    lastUserIndex (input.map scrubLsc) = lastUserIndex input := by
  unfold lastUserIndex
  rw [List.enum_map, List.foldl_map]
  congr 1
  funext acc p
  obtain ⟨i, x⟩ := p
  cases x <;> rfl

/-- Helper: assistant-message detection never reads a `call_id`. -/
theorem isAssistantMessage_scrub (x : ResponseItem) :
    isAssistantMessage (scrubLsc x) = isAssistantMessage x := by
  cases x <;> rfl

/-- Helper: forward-anchor detection never reads a `call_id`. -/
theorem isAnchorNext_scrub (x : ResponseItem) :
    isAnchorNext (scrubLsc x) = isAnchorNext x := by
  cases x <;> rfl

/-- Helper: one anchoring step never reads a `call_id`. -/
theorem anchorStep_scrub (input : List ResponseItem) (lu : Option Nat)
    (m : Nat → Option String) (idx : Nat) (item : ResponseItem) :
    anchorStep (input.map scrubLsc) lu m idx (scrubLsc item) =
      anchorStep input lu m idx item := by
  unfold anchorStep
  cases item with
  | reasoning c =>
    cases c with
    | none => rfl
    | some items =>
      simp only [scrubLsc]
      by_cases hidx : 0 < idx
      · simp only [hidx, if_true, List.getElem?_map]
        cases ho : input[idx-1]? with
        | none =>
          simp only [Option.map_none, Option.map_none']
          cases hn : input[idx+1]? <;>
            simp [List.getElem?_map, hn, isAnchorNext_scrub]
        | some p =>
          simp only [Option.map_some, Option.map_some']
          rw [isAssistantMessage_scrub]
          cases hia : isAssistantMessage p <;>
            cases hn : input[idx+1]? <;>
              simp [List.getElem?_map, hn, isAnchorNext_scrub]
      · simp only [hidx, if_false]
        cases hn : input[idx+1]? <;>
          simp [List.getElem?_map, hn, isAnchorNext_scrub]
  | message a b c d e => rfl
  | functionCall a b c d => rfl
  | functionCallOutput a b => rfl
  | localShellCall a b c d => rfl
  | customToolCall a b c d e => rfl
  | customToolCallOutput a b => rfl
  | webSearchCall => rfl
  | ghostSnapshot => rfl
  | compaction => rfl
  | other => rfl

/-- Helper: the whole anchor map never reads a `call_id`. -/
theorem buildAnchorMap_scrub (input : List ResponseItem) :
    buildAnchorMap (input.map scrubLsc) = buildAnchorMap input := by
  unfold buildAnchorMap
  rw [lastEmittedRole_scrub]
  by_cases h : lastEmittedRole input = some "user"
  · rw [if_pos h, if_pos h]
  · rw [if_neg h, if_neg h, lastUserIndex_scrub, List.enum_map, List.foldl_map]
    congr 1
    funext m p
    show anchorStep (input.map scrubLsc) (lastUserIndex input) m
      (Prod.map id scrubLsc p).1 (Prod.map id scrubLsc p).2 = _
    cases p with
    | mk i x => exact anchorStep_scrub input (lastUserIndex input) m i x

/-- Helper: the assembly loop arm never reads a `call_id` of a
`LocalShellCall`. -/
theorem processItem_scrub (rc : Option String) (anchor : Nat → Option String)
    (st : AsmState) (idx : Nat) (item : ResponseItem) :
    processItem rc anchor st idx (scrubLsc item) = processItem rc anchor st idx item := by
  cases item <;> rfl

/-- Helper: the whole loop never reads a `call_id` of a `LocalShellCall`. -/
theorem processItems_scrub (rc : Option String) (anchor : Nat → Option String)
    (items : List ResponseItem) :
    ∀ (st : AsmState) (idx : Nat),
      processItems rc anchor st idx (items.map scrubLsc) =
        processItems rc anchor st idx items := by
  induction items with
  | nil => intro st idx; rfl
  | cons it rest ih =>
    intro st idx
    show processItems rc anchor (processItem rc anchor st idx (scrubLsc it)) (idx+1)
      (rest.map scrubLsc) = _
    rw [processItem_scrub, ih]
    rfl

/-- C10: the `LocalShellCall` arm of the assembler builds the emitted
tool-call id and the pending-set entry from the item's `id` field alone —
erasing every `LocalShellCall.call_id` from the history changes neither the
assembled messages nor the build result; when `id` is absent the empty
string is used silently, and a history whose `LocalShellCall` carries
neither id still builds successfully, emitting an assistant `tool_call`
with id `""`. -/
theorem C10_local_shell_id_only (instructions : String) (rc : Option String) :
    (∀ input : List ResponseItem,
      assembleMessages instructions rc (input.map scrubLsc) =
        assembleMessages instructions rc input
      ∧ build instructions rc (input.map scrubLsc) = build instructions rc input)
    ∧ (∀ (anchor : Nat → Option String) (st : AsmState) (idx : Nat)
        (call_id : Option String) (status : String) (action : LocalShellAction),
      (processItem rc anchor st idx (.localShellCall none call_id status action)).pending =
        hsInsert st.pending ""
      ∧ (processItem rc anchor st idx (.localShellCall none call_id status action)).messages =
        pushToolCallMessage st.messages (.localShell "" status action) (anchor idx))
    ∧ build "c10-inst" none
        [.message none "user" [.inputText "x"] none none,
         .localShellCall none none "completed" (.exec { command := ["ls"] })] =
      .ok [systemMsg "c10-inst",
        { role := "user", content := .str "x" },
        wrapMsg [.localShell "" "completed" (.exec { command := ["ls"] })] ""] := by
  refine ⟨?_, ?_, ?_⟩
  · intro input
    have ha : assembleMessages instructions rc (input.map scrubLsc) =
        assembleMessages instructions rc input := by
      unfold assembleMessages
      rw [buildAnchorMap_scrub, processItems_scrub]
    refine ⟨ha, ?_⟩
    unfold build
    rw [ha]
  · intro anchor st idx call_id status action
    exact ⟨rfl, rfl⟩
  · rfl

/-! ### C1 — the validation pass of `build` -/

/-- Helper: the validation error message determines the offending id. -/
theorem missingToolMsgError_inj {X Y : String}
    (h : missingToolMsgError X = missingToolMsgError Y) : X = Y := by
  unfold missingToolMsgError at h
  injection h with h1 h2
  have hd := congrArg String.data h2
  simp only [String.data_append] at hd
  rw [List.append_assoc, List.append_assoc] at hd
  have h3 := List.append_cancel_left hd
  have h4 := List.append_cancel_right h3
  exact String.ext h4

/-- Helper: with no tool message in the list, no indexed message has role
`tool`. -/
theorem noToolMsg_role (msgs : List Msg) (h : hasToolMsg msgs = false)
    (i : Nat) (m : Msg) (hm : msgs[i]? = some m) : ¬ m.role = "tool" := by
  intro hr
  have hmem : m ∈ msgs := by
    have hi : i < msgs.length := by
      by_contra hge
      rw [List.getElem?_eq_none (Nat.le_of_not_lt hge)] at hm
      cases hm
    rw [List.getElem?_eq_getElem hi] at hm
    cases hm
    exact List.getElem_mem hi
  unfold hasToolMsg at h
  rw [List.any_eq_false] at h
  have := h m hmem
  simp [hr] at this

/-- Helper: being uncovered at or beyond `i` splits into being uncovered at
`i` or at or beyond `i+1`. -/
theorem uncoveredFrom_succ (msgs : List Msg) (i : Nat) (X : String) :
    UncoveredFrom msgs i X ↔ UncoveredAt msgs i X ∨ UncoveredFrom msgs (i+1) X := by
  constructor
  · rintro ⟨j, hle, hat⟩
    rcases Nat.eq_or_lt_of_le hle with heq | hlt
    · subst heq
      exact Or.inl hat
    · exact Or.inr ⟨j, hlt, hat⟩
  · rintro (hat | ⟨j, hle, hat⟩)
    · exact ⟨i, Nat.le_refl i, hat⟩
    · exact ⟨j, Nat.le_of_succ_le hle, hat⟩

/-- Helper: the branch characterization of the validation loop under the
no-tool-message hypothesis: with enough fuel it either accepts, and then no
id is uncovered from the scanned position on, or it rejects with the
validation error of an uncovered id. -/
theorem validateLoop_char (msgs : List Msg) (hnt : hasToolMsg msgs = false) :
    ∀ (fuel i : Nat), msgs.length - i < fuel →
      (validateLoop msgs fuel i = .ok () ∧ ∀ X, ¬ UncoveredFrom msgs i X) ∨
      (∃ X, validateLoop msgs fuel i = .error (missingToolMsgError X) ∧
        UncoveredFrom msgs i X) := by
  intro fuel
  induction fuel with
  | zero => intro i hf; omega
  | succ fuel ih =>
    intro i hf
    cases hm : msgs[i]? with
    | none =>
      left
      have hlen : msgs.length ≤ i := by
        by_contra hlt
        rw [List.getElem?_eq_getElem (Nat.lt_of_not_le hlt)] at hm
        cases hm
      constructor
      · unfold validateLoop
        rw [hm]
      · rintro X ⟨j, hle, m, tcs, hj, -⟩
        rw [List.getElem?_eq_none (by omega)] at hj
        cases hj
    | some m =>
      have hi : i < msgs.length := by
        by_contra hge
        rw [List.getElem?_eq_none (Nat.le_of_not_lt hge)] at hm
        cases hm
      have hrec := ih (i+1) (by omega)
      have hrole := noToolMsg_role msgs hnt i m hm
      by_cases hass : m.role = "assistant"
      · cases htc : m.tool_calls with
        | none =>
          have heq : validateLoop msgs (fuel+1) i = validateLoop msgs fuel (i+1) := by
            simp [validateLoop, hm, hass, htc]
          have hat : ∀ X, ¬ UncoveredAt msgs i X := by
            rintro X ⟨m2, tcs2, hm2, -, htc2, -⟩
            rw [hm] at hm2
            cases hm2
            rw [htc] at htc2
            cases htc2
          rcases hrec with ⟨hok, hnone⟩ | ⟨X0, herr, hF⟩
          · left
            refine ⟨heq.trans hok, fun X hX => ?_⟩
            rcases (uncoveredFrom_succ msgs i X).mp hX with h1 | h1
            · exact hat X h1
            · exact hnone X h1
          · exact Or.inr ⟨X0, heq.trans herr,
              (uncoveredFrom_succ msgs i X0).mpr (Or.inr hF)⟩
        | some tcs =>
          by_cases hemp : (tcs.map ToolCallJson.id).isEmpty = true
          · have heq : validateLoop msgs (fuel+1) i = validateLoop msgs fuel (i+1) := by
              simp [validateLoop, hm, hass, htc, hemp]
            have hat : ∀ X, ¬ UncoveredAt msgs i X := by
              rintro X ⟨m2, tcs2, hm2, -, htc2, hXmem, -⟩
              rw [hm] at hm2
              cases hm2
              rw [htc] at htc2
              cases htc2
              rw [List.isEmpty_iff] at hemp
              rw [hemp] at hXmem
              cases hXmem
            rcases hrec with ⟨hok, hnone⟩ | ⟨X0, herr, hF⟩
            · left
              refine ⟨heq.trans hok, fun X hX => ?_⟩
              rcases (uncoveredFrom_succ msgs i X).mp hX with h1 | h1
              · exact hat X h1
              · exact hnone X h1
            · exact Or.inr ⟨X0, heq.trans herr,
                (uncoveredFrom_succ msgs i X0).mpr (Or.inr hF)⟩
          · cases hsaw : (scanTools (msgs.drop (i+1))).2 with
            | false =>
              have heq : validateLoop msgs (fuel+1) i = validateLoop msgs fuel (i+1) := by
                simp [validateLoop, hm, hass, htc, hemp, hsaw]
              have hat : ∀ X, ¬ UncoveredAt msgs i X := by
                rintro X ⟨m2, tcs2, hm2, -, htc2, -, hsaw2, -⟩
                rw [hm] at hm2
                cases hm2
                rw [htc] at htc2
                cases htc2
                rw [hsaw] at hsaw2
                cases hsaw2
              rcases hrec with ⟨hok, hnone⟩ | ⟨X0, herr, hF⟩
              · left
                refine ⟨heq.trans hok, fun X hX => ?_⟩
                rcases (uncoveredFrom_succ msgs i X).mp hX with h1 | h1
                · exact hat X h1
                · exact hnone X h1
              · exact Or.inr ⟨X0, heq.trans herr,
                  (uncoveredFrom_succ msgs i X0).mpr (Or.inr hF)⟩
            | true =>
              cases hfind : (tcs.map ToolCallJson.id).find?
                  (fun cid => ! (scanTools (msgs.drop (i+1))).1.contains cid) with
              | none =>
                have hpred : (fun cid => ! (scanTools (msgs.drop (i+1))).1.contains cid) =
                    (fun cid => ! decide (cid ∈ (scanTools (msgs.drop (i+1))).1)) := by
                  funext x
                  simp [List.contains, List.elem_eq_mem]
                have heq : validateLoop msgs (fuel+1) i = validateLoop msgs fuel (i+1) := by
                  have hfind2 := hfind
                  rw [List.find?_map, hpred] at hfind2
                  simp [validateLoop, hm, hass, htc, hemp, hsaw]
                  rw [hfind2]
                have hat : ∀ X, ¬ UncoveredAt msgs i X := by
                  rintro X ⟨m2, tcs2, hm2, -, htc2, hXmem, -, hXnf⟩
                  rw [hm] at hm2
                  cases hm2
                  rw [htc] at htc2
                  cases htc2
                  have h5 := List.find?_eq_none.mp hfind X hXmem
                  have h8 : X ∈ (scanTools (msgs.drop (i+1))).1 := by
                    by_contra h9
                    apply h5
                    simp [List.contains, List.elem_eq_mem, h9]
                  exact hXnf h8
                rcases hrec with ⟨hok, hnone⟩ | ⟨X0, herr, hF⟩
                · left
                  refine ⟨heq.trans hok, fun X hX => ?_⟩
                  rcases (uncoveredFrom_succ msgs i X).mp hX with h1 | h1
                  · exact hat X h1
                  · exact hnone X h1
                · exact Or.inr ⟨X0, heq.trans herr,
                    (uncoveredFrom_succ msgs i X0).mpr (Or.inr hF)⟩
              | some cid =>
                right
                have hpred : (fun cid => ! (scanTools (msgs.drop (i+1))).1.contains cid) =
                    (fun cid => ! decide (cid ∈ (scanTools (msgs.drop (i+1))).1)) := by
                  funext x
                  simp [List.contains, List.elem_eq_mem]
                refine ⟨cid, ?_, ?_⟩
                · have hfind2 := hfind
                  rw [List.find?_map, hpred] at hfind2
                  simp [validateLoop, hm, hass, htc, hemp, hsaw]
                  rw [hfind2]
                · refine ⟨i, Nat.le_refl i, m, tcs, hm, hass, htc, ?_, hsaw, ?_⟩
                  · exact List.mem_of_find?_eq_some hfind
                  · have hp := List.find?_some hfind
                    intro hmem
                    simp at hp
                    exact hp hmem
      · have heq : validateLoop msgs (fuel+1) i = validateLoop msgs fuel (i+1) := by
          simp [validateLoop, hm, hass, hrole]
        have hat : ∀ X, ¬ UncoveredAt msgs i X := by
          rintro X ⟨m2, tcs2, hm2, hass2, -⟩
          rw [hm] at hm2
          cases hm2
          exact hass hass2
        rcases hrec with ⟨hok, hnone⟩ | ⟨X0, herr, hF⟩
        · left
          refine ⟨heq.trans hok, fun X hX => ?_⟩
          rcases (uncoveredFrom_succ msgs i X).mp hX with h1 | h1
          · exact hat X h1
          · exact hnone X h1
        · exact Or.inr ⟨X0, heq.trans herr,
            (uncoveredFrom_succ msgs i X0).mpr (Or.inr hF)⟩

/-- Helper: appending preserves the head. -/
theorem head?_append_left (l l' : List Msg) (a : Msg) (h : l.head? = some a) :
    (l ++ l').head? = some a := by
  cases l with
  | nil => cases h
  | cons x t => simpa using h

/-- Helper: filtering preserves a kept head. -/
theorem head?_filter_pos (p : Msg → Bool) (l : List Msg) (a : Msg)
    (h : l.head? = some a) (hp : p a = true) :
    (l.filter p).head? = some a := by
  cases l with
  | nil => cases h
  | cons x t =>
    have hax : x = a := by simpa using h
    subst hax
    rw [List.filter_cons_of_pos hp]
    rfl

/-- Helper: `push_tool_call_message` preserves a non-assistant head. -/
theorem pushToolCallMessage_head (msgs : List Msg) (tc : ToolCallJson)
    (r : Option String) (a : Msg) (h : msgs.head? = some a)
    (ha : ¬ a.role = "assistant") :
    (pushToolCallMessage msgs tc r).head? = some a := by
  unfold pushToolCallMessage
  cases msgs with
  | nil => cases h
  | cons x rest =>
    have hax : x = a := by simpa using h
    subst hax
    cases hl : (x :: rest).getLast? with
    | none => simp at hl
    | some m =>
      cases htc : m.tool_calls with
      | none => simp [htc]
      | some tcs =>
        simp only [htc]
        by_cases hc : m.role = "assistant" ∧ m.content = JContent.null
        · rw [if_pos hc]
          cases rest with
          | nil =>
            have hmx : x = m := by simpa using hl
            exact absurd (by rw [hmx]; exact hc.1) ha
          | cons y t =>
            have hd : (x :: y :: t).dropLast = x :: (y :: t).dropLast := rfl
            rw [hd]
            rfl
        · rw [if_neg hc]
          simp

/-- Helper: the message-arm tail preserves a head that is neither an
assistant nor an assistant-with-tool_calls message. -/
theorem processMessageTail_head (anchor : Nat → Option String) (st : AsmState)
    (idx : Nat) (role text : String) (items : List CPart) (sawImage : Bool)
    (a : Msg) (h : st.messages.head? = some a)
    (haf : notAssistantWithToolCalls a = true) :
    (processMessageTail anchor st idx role text items sawImage).messages.head? =
      some a := by
  simp only [processMessageTail]
  split
  next hev =>
    split
    next hdup => exact head?_filter_pos _ _ _ h haf
    next hdup =>
      refine head?_append_left _ _ _ ?_
      split
      · exact head?_filter_pos _ _ _ h haf
      · exact head?_filter_pos _ _ _ h haf
  next hev =>
    split
    next hdup => exact h
    next hdup =>
      refine head?_append_left _ _ _ ?_
      split
      · exact h
      · exact h

/-- Helper: one assembly step preserves such a head. -/
theorem processItem_head (rc : Option String) (anchor : Nat → Option String)
    (st : AsmState) (idx : Nat) (item : ResponseItem) (a : Msg)
    (h : st.messages.head? = some a) (ha : ¬ a.role = "assistant")
    (haf : notAssistantWithToolCalls a = true) :
    (processItem rc anchor st idx item).messages.head? = some a := by
  cases item with
  | message id role0 content rcf tool_calls =>
    simp only [processItem]
    cases hmt : (if (if role0 = "developer" then "user" else role0) = "tool"
        then id else none) with
    | some cid => exact head?_append_left _ _ _ h
    | none =>
      by_cases hass : (if role0 = "developer" then "user" else role0) = "assistant"
      · rw [if_pos hass]
        exact head?_append_left _ _ _ h
      · rw [if_neg hass]
        exact processMessageTail_head _ st idx _ _ _ _ a h haf
  | functionCall i n ar c => exact pushToolCallMessage_head _ _ _ a h ha
  | localShellCall i c s ac => exact pushToolCallMessage_head _ _ _ a h ha
  | customToolCall i c n inp s => exact pushToolCallMessage_head _ _ _ a h ha
  | functionCallOutput c o => exact head?_append_left _ _ _ h
  | customToolCallOutput c o => exact head?_append_left _ _ _ h
  | reasoning c => exact h
  | webSearchCall => exact h
  | ghostSnapshot => exact h
  | compaction => exact h
  | other => exact h

/-- Helper: the whole loop preserves such a head. -/
theorem processItems_head (rc : Option String) (anchor : Nat → Option String)
    (items : List ResponseItem) :
    ∀ (st : AsmState) (idx : Nat) (a : Msg), st.messages.head? = some a →
      ¬ a.role = "assistant" → notAssistantWithToolCalls a = true →
      (processItems rc anchor st idx items).messages.head? = some a := by
  induction items with
  | nil => intro st idx a h _ _; exact h
  | cons it rest ih =>
    intro st idx a h ha haf
    exact ih (processItem rc anchor st idx it) (idx + 1) a
      (processItem_head rc anchor st idx it a h ha haf) ha haf

/-- Helper: the assembled messages always start with the system message. -/
theorem assembleMessages_head (instructions : String) (rc : Option String)
    (input : List ResponseItem) :
    (assembleMessages instructions rc input).head? = some (systemMsg instructions) := by
  exact processItems_head rc (buildAnchorMap input) input (initState instructions) 0
    (systemMsg instructions) rfl (by intro hr; simp [systemMsg] at hr) rfl

/-- Helper: since index 0 is the system message, being uncovered anywhere is
being uncovered at index 1 or beyond (the range the loop scans). -/
theorem uncovered_iff_from_one (instructions : String) (rc : Option String)
    (input : List ResponseItem) (X : String) :
    Uncovered (assembleMessages instructions rc input) X ↔
      UncoveredFrom (assembleMessages instructions rc input) 1 X := by
  constructor
  · rintro ⟨i, hat⟩
    cases i with
    | zero =>
      obtain ⟨m, tcs, hm, hass, -⟩ := hat
      rw [show (assembleMessages instructions rc input)[0]? =
          (assembleMessages instructions rc input).head? from
          (List.head?_eq_getElem? _).symm] at hm
      rw [assembleMessages_head] at hm
      cases hm
      simp [systemMsg] at hass
    | succ n => exact ⟨n + 1, by omega, hat⟩
  · rintro ⟨j, -, hat⟩
    exact ⟨j, hat⟩

/-- C1: `build` returns a `BadRequest` error naming a tool-call id `X` iff
the assembled messages contain no tool-role message and some assistant
message carrying `tool_calls` has an uncovered id; the id named by the
error is itself uncovered; and whenever any tool-role message is present the
check is skipped entirely and `build` succeeds. -/
theorem C1_validation_iff (instructions : String) (rc : Option String)
    (input : List ResponseItem) :
    ((∃ X, build instructions rc input = .error (missingToolMsgError X)) ↔
      hasToolMsg (assembleMessages instructions rc input) = false ∧
      ∃ X, Uncovered (assembleMessages instructions rc input) X)
    ∧ (∀ X, build instructions rc input = .error (missingToolMsgError X) →
        Uncovered (assembleMessages instructions rc input) X)
    ∧ (hasToolMsg (assembleMessages instructions rc input) = true →
        build instructions rc input = .ok (assembleMessages instructions rc input)) := by
  by_cases htool : hasToolMsg (assembleMessages instructions rc input) = true
  · have hbuild : build instructions rc input =
        .ok (assembleMessages instructions rc input) := by
      simp only [build]
      rw [if_pos htool]
    refine ⟨?_, ?_, fun _ => hbuild⟩
    · constructor
      · rintro ⟨X, hX⟩
        rw [hbuild] at hX
        cases hX
      · rintro ⟨hfalse, -⟩
        rw [htool] at hfalse
        cases hfalse
    · intro X hX
      rw [hbuild] at hX
      cases hX
  · have hnt : hasToolMsg (assembleMessages instructions rc input) = false :=
      Bool.not_eq_true _ ▸ Bool.of_not_eq_true htool
    have hchar := validateLoop_char (assembleMessages instructions rc input) hnt
      ((assembleMessages instructions rc input).length + 1) 1 (by omega)
    rcases hchar with ⟨hok, hnone⟩ | ⟨X0, herr, hF⟩
    · have hbuild : build instructions rc input =
          .ok (assembleMessages instructions rc input) := by
        simp only [build]
        rw [if_neg htool, hok]
      refine ⟨?_, ?_, fun ht => absurd ht htool⟩
      · constructor
        · rintro ⟨X, hX⟩
          rw [hbuild] at hX
          cases hX
        · rintro ⟨-, X, hX⟩
          exact absurd ((uncovered_iff_from_one instructions rc input X).mp hX)
            (hnone X)
      · intro X hX
        rw [hbuild] at hX
        cases hX
    · have hbuild : build instructions rc input =
          .error (missingToolMsgError X0) := by
        simp only [build]
        rw [if_neg htool, herr]
      refine ⟨?_, ?_, fun ht => absurd ht htool⟩
      · constructor
        · rintro ⟨X, -⟩
          exact ⟨hnt, X0, (uncovered_iff_from_one instructions rc input X0).mpr hF⟩
        · rintro -
          exact ⟨X0, hbuild⟩
      · intro X hX
        rw [hbuild] at hX
        injection hX with hX2
        have hXX : X0 = X := missingToolMsgError_inj (by rw [hX2])
        rw [← hXX]
        exact (uncovered_iff_from_one instructions rc input X0).mpr hF

/-- Witness for C1, at the S4 history: a pending `c1` followed by an
assistant reply makes `build` fail naming `c1`, which is indeed uncovered. -/
theorem C1_validation_iff_witness :
    Uncovered (assembleMessages "inst" none
      [.message none "user" [.inputText "X"] none none,
       .functionCall none "f" "a1" "c1",
       .message none "assistant" [.outputText "done"] none none]) "c1" :=
  (C1_validation_iff "inst" none
      [.message none "user" [.inputText "X"] none none,
       .functionCall none "f" "a1" "c1",
       .message none "assistant" [.outputText "done"] none none]).2.1 "c1" rfl

end Codex
